import Mathlib

/-!
# Verification of the BirdNET-Pi-MigCount spectrogram / segmentation engine

Shallow embedding of the numeric core of the repository:

* `experimental/spectrogram_generator.py` — hop-length derivation,
  RMS-based segment detection (`detect_segments`), the contrast /
  normalization stage of `generate_spectrogram`, and the PNG
  re-encode/validate logic;
* `experimental/newlook/utils.py` — `clamp_frequency_range`,
  `validate_window_name`;
* `experimental/newlook/spectrogram_engine.py` — `_power_to_db` and
  `compute_spectrogram`.

Modelling conventions:

* Python floats are modelled as exact rationals (`ℚ`) in configuration
  fields, and as reals (`ℝ`) wherever transcendental functions
  (`exp`, `sqrt`, `log`) of the underlying libraries are involved.
* Python `int(x)` truncates toward zero; this is `pyInt`.
* Python `x or d` on numbers yields `d` when `x` is `None` **or** `0`;
  this is `pyOr`.
* Library semantics that the repository delegates to are embedded from
  the libraries' documented contracts: `scipy.signal.stft` validation
  (`nperseg` positivity, downward adjustment of `nperseg` to the input
  length, rejection of `noverlap ≥ nperseg`) and its `rfftfreq`
  frequency axis; `librosa.feature.rms` centred framing with
  zero padding; `np.clip`, `np.max`, `np.percentile` (linear
  interpolation).
-/

/-! ## Python numeric primitives -/

/-- Python `int(x)` on a float: truncation toward zero. -/
def pyInt (q : ℚ) : ℤ := if 0 ≤ q then ⌊q⌋ else ⌈q⌉

/-- Python `x or d` for an optional float `x`: `d` when `x` is `None` or `0`. -/
def pyOr (x : Option ℚ) (d : ℚ) : ℚ :=
  match x with
  | none => d
  | some v => if v = 0 then d else v

/-- Decidable equality for `Except` results, used to evaluate the
embedded validators on concrete inputs. -/
instance exceptDecEq {ε α : Type} [DecidableEq ε] [DecidableEq α] :
    DecidableEq (Except ε α) := fun a b =>
  match a, b with
  | Except.error e, Except.error f =>
    if h : e = f then isTrue (by rw [h]) else isFalse (by intro hc; cases hc; exact h rfl)
  | Except.error _, Except.ok _ => isFalse (by intro hc; cases hc)
  | Except.ok _, Except.error _ => isFalse (by intro hc; cases hc)
  | Except.ok v, Except.ok w =>
    if h : v = w then isTrue (by rw [h]) else isFalse (by intro hc; cases hc; exact h rfl)

/-- Model of `np.max` of a (non-empty) 1-D array; `0` as junk value on the empty
array, where NumPy would raise. -/
def npMax : List ℝ → ℝ
  | [] => 0
  | x :: xs => xs.foldl max x

/-- Model of `np.min` of a (non-empty) 1-D array; `0` as junk value on the empty array. -/
def npMin : List ℝ → ℝ
  | [] => 0
  | x :: xs => xs.foldl min x

/-! ## Hop-length derivation (`_calculate_hop_length`) -/

/-- Model of `_calculate_hop_length(n_fft, hop_ratio, provided)` from
`experimental/spectrogram_generator.py`:
`provided if provided and provided > 0 else int(n_fft * hop_ratio)`. -/
def calculate_hop_length (n_fft : ℕ) (hop_ratio : ℚ) (provided : Option ℤ) : ℤ :=
  let hop_from_ratio := pyInt ((n_fft : ℚ) * hop_ratio)
  match provided with
  | none => hop_from_ratio
  | some p => if 0 < p then p else hop_from_ratio

/-! ## Configuration (`SpectrogramConfig`), restricted to the fields the
engine reads. Defaults are the dataclass defaults. -/

structure SpectrogramConfig where
  transform : String := "mel"
  sample_rate : ℕ := 48000
  n_fft : ℕ := 4096
  hop_ratio : ℚ := 1/8
  hop_length : ℤ := 512
  fmin : Option ℚ := some 2000
  fmax : Option ℚ := some 9500
  pcen_enabled : Bool := false
  per_frequency_normalization : Bool := false
  dynamic_range : ℚ := 45
  contrast_percentile : Option ℚ := none
  rms_frame_length : ℕ := 2048
  rms_threshold : ℚ := 1/10
  min_segment_duration : ℚ := 1/20
  min_silence_duration : ℚ := 1/20
  sigmoid_k : ℚ := 3/20

/-- Hop length as computed inside `detect_segments`:
`_calculate_hop_length(cfg.n_fft, cfg.hop_ratio, getattr(cfg, "hop_length", None))`
(the dataclass always carries `hop_length`). -/
def detect_segments_hop (cfg : SpectrogramConfig) : ℤ :=
  calculate_hop_length cfg.n_fft cfg.hop_ratio (some cfg.hop_length)

/-- Hop length as computed inside `generate_spectrogram` (same call). -/
def generate_spectrogram_hop (cfg : SpectrogramConfig) : ℤ :=
  calculate_hop_length cfg.n_fft cfg.hop_ratio (some cfg.hop_length)

/-! ## Frequency-bound handling -/

/-- Model of `clamp_frequency_range(fmin, fmax, sample_rate)` from
`experimental/newlook/utils.py`.  Raises `ValueError` when
`max(0, fmin) ≥ min(fmax, nyquist)`; modelled as `Except`. -/
def clamp_frequency_range (fmin : ℚ) (fmax : Option ℚ) (sample_rate : ℕ) :
    Except String (ℚ × ℚ) :=
  let nyquist : ℚ := (sample_rate : ℚ) / 2
  let low := max 0 fmin
  let high := match fmax with
    | none => nyquist
    | some v => min v nyquist
  if high ≤ low then Except.error ("fmin must be lower than fmax and Nyquist")
  else Except.ok (low, high)

/-- The frequency-bound determination of `generate_spectrogram`
(lines 370–375 of `experimental/spectrogram_generator.py`):

```
nyquist = sr / 2.0
freq_cap = min(16000.0, nyquist - 1.0)
effective_fmin = cfg.fmin or 0.0
effective_fmax = min(cfg.fmax or freq_cap, freq_cap)
if effective_fmax <= effective_fmin:
    effective_fmin = max(0.0, effective_fmax * 0.5)
```
-/
def effective_freq_bounds (fmin fmax : Option ℚ) (sr : ℕ) : ℚ × ℚ :=
  let nyquist : ℚ := (sr : ℚ) / 2
  let freq_cap := min 16000 (nyquist - 1)
  let effective_fmin := pyOr fmin 0
  let effective_fmax := min (pyOr fmax freq_cap) freq_cap
  if effective_fmax ≤ effective_fmin then (max 0 (effective_fmax * (1/2)), effective_fmax)
  else (effective_fmin, effective_fmax)

/-- The pre-correction `effective_fmax` of `generate_spectrogram`. -/
def raw_effective_fmax (fmax : Option ℚ) (sr : ℕ) : ℚ :=
  let freq_cap := min 16000 ((sr : ℚ) / 2 - 1)
  min (pyOr fmax freq_cap) freq_cap

/-- The pre-correction `effective_fmin` of `generate_spectrogram`. -/
def raw_effective_fmin (fmin : Option ℚ) : ℚ := pyOr fmin 0

/-! ## Window validation and the scipy STFT entry checks -/

/-- Model of Python `str.lower()` (character-wise; the window names in
play are ASCII). -/
def pyLower (s : String) : String := String.mk (s.data.map Char.toLower)

/-- Model of `validate_window_name(name, allowed)` from `experimental/newlook/utils.py`. -/
def validate_window_name (name : String) (allowed : List String) :
    Except String String :=
  let lower := pyLower name
  if (allowed.map (fun w => pyLower w)).contains lower then Except.ok lower
  else Except.error ("Unsupported window " ++ name)

/-- Entry validation of `scipy.signal.stft` as invoked by
`compute_spectrogram` (window given by name, `nfft = None`,
`boundary=None`, `padded=False`): `nperseg` must be a positive integer;
`nperseg` is silently lowered to the input length when larger; then
`noverlap ≥ nperseg` is rejected.  Returns the adjusted `nperseg`. -/
def scipy_stft_check (n_fft hop_length : ℤ) (audio_len : ℕ) :
    Except String ℕ :=
  if n_fft < 1 then Except.error ("nperseg must be a positive integer")
  else
    let nperseg : ℕ := min n_fft.toNat audio_len
    let noverlap : ℤ := n_fft - hop_length
    if (nperseg : ℤ) ≤ noverlap then Except.error ("noverlap must be less than nperseg.")
    else Except.ok nperseg

/-- The one-sided FFT frequency axis `np.fft.rfftfreq(nperseg, 1/fs)`
returned by `scipy.signal.stft`: `k * fs / nperseg` for
`k = 0 … nperseg // 2`. -/
def rfft_freqs (sample_rate : ℕ) (nperseg : ℕ) : List ℚ :=
  (List.range (nperseg / 2 + 1)).map
    (fun k : ℕ => ((k : ℚ) * (sample_rate : ℚ)) / (nperseg : ℚ))

/-- The validation and frequency-axis portion of
`compute_spectrogram` (`experimental/newlook/spectrogram_engine.py`),
in source order: window validation, the scipy STFT entry checks, then
`clamp_frequency_range(fmin or 0.0, fmax or sample_rate/2, sample_rate)`
and the mask `(freqs >= low) & (freqs <= high)`.
Returns the retained frequencies together with the row mask. -/
def compute_spectrogram_freqs (audio_len : ℕ) (sample_rate : ℕ)
    (n_fft hop_length : ℤ) (window : String) (fmin fmax : Option ℚ) :
    Except String (List ℚ × List Bool) := do
  let _ ← validate_window_name window ["hann", "blackman", "hamming"]
  let nperseg ← scipy_stft_check n_fft hop_length audio_len
  let freqs := rfft_freqs sample_rate nperseg
  let lh ← clamp_frequency_range (pyOr fmin 0)
      (some (pyOr fmax ((sample_rate : ℚ) / 2))) sample_rate
  Except.ok (freqs.filter (fun f => decide (lh.1 ≤ f ∧ f ≤ lh.2)),
             freqs.map (fun f => decide (lh.1 ≤ f ∧ f ≤ lh.2)))

/-! ## The segment state machine of `detect_segments`

The Python loop walks the boolean activation mask with sample index
`i * hop_length`, opening a segment on a rising edge and closing it on a
falling edge; a closed candidate of at least `min_samples` samples is
either merged into the previous accepted segment (gap `< min_silence`)
or appended; a segment still open at the end of the mask is closed at
`len(y)` under the same rule.  The accepted list is kept in reverse
order here (`append` becomes `cons`, "last accepted" becomes the head)
and reversed at the end. -/

/-- Machine state: accepted segments in reverse order, the
`in_segment` flag, and `seg_start`. -/
structure SegState where
  segs : List (ℕ × ℕ)
  inSeg : Bool
  segStart : ℕ
deriving Repr, DecidableEq

/-- Closing a candidate segment `[s, e)`: accept when
`e - s ≥ min_samples`, merging into the previous accepted segment when
the silence gap is `< min_silence`. -/
def segClose (segs : List (ℕ × ℕ)) (s e : ℕ) (minSamples minSilence : ℤ) :
    List (ℕ × ℕ) :=
  if minSamples ≤ (e : ℤ) - (s : ℤ) then
    match segs with
    | [] => [(s, e)]
    | last :: rest =>
      if (s : ℤ) - (last.2 : ℤ) < minSilence then (last.1, e) :: rest
      else (s, e) :: last :: rest
  else segs

/-- One iteration of the `for i, m in enumerate(mask)` loop. -/
def segStep (hop : ℕ) (minSamples minSilence : ℤ) (i : ℕ) (m : Bool)
    (st : SegState) : SegState :=
  if m ∧ ¬ st.inSeg then { st with inSeg := true, segStart := i * hop }
  else if ¬ m ∧ st.inSeg then
    { st with segs := segClose st.segs st.segStart (i * hop) minSamples minSilence,
              inSeg := false }
  else st

/-- The loop, starting at frame index `i`. -/
def segRun (hop : ℕ) (minSamples minSilence : ℤ) :
    ℕ → List Bool → SegState → SegState
  | _, [], st => st
  | i, m :: rest, st =>
    segRun hop minSamples minSilence (i + 1) rest
      (segStep hop minSamples minSilence i m st)

/-- Body of `detect_segments` from the activation mask on: the loop over the
mask followed by the trailing close at `len(y) = n`. -/
def detect_segments_from_mask (mask : List Bool) (hop : ℕ)
    (minSamples minSilence : ℤ) (n : ℕ) : List (ℕ × ℕ) :=
  let st := segRun hop minSamples minSilence 0 mask ⟨[], false, 0⟩
  (if st.inSeg then segClose st.segs st.segStart n minSamples minSilence
   else st.segs).reverse

/-- Value `min_samples = int(cfg.min_segment_duration * sr)`. -/
def minSamplesOf (cfg : SpectrogramConfig) (sr : ℕ) : ℤ :=
  pyInt (cfg.min_segment_duration * sr)

/-- Value `min_silence = int(cfg.min_silence_duration * sr)`. -/
def minSilenceOf (cfg : SpectrogramConfig) (sr : ℕ) : ℤ :=
  pyInt (cfg.min_silence_duration * sr)

/-! ## The RMS envelope, sigmoid soft-threshold and the detection relation

Real-valued layer of `detect_segments`: `librosa.feature.rms` (centred
framing, zero padding, frame count `1 + (n + 2*(fl//2) - fl) // hop`),
normalization `rms / np.max(rms + 1e-6)`, and `_sigmoid`.  The
comparison of real activations against the threshold is expressed
relationally (`maskRel`), since the boolean mask is the only part of
this data the downstream state machine consumes. -/

/-- Literal `1e-6` of the Python sources. -/
noncomputable def smallEps : ℝ := 1 / 1000000

/-- Value `np.finfo(np.float32).eps` used by the newlook engine. -/
noncomputable def EPS32 : ℝ := 1 / 8388608

/-- Sample of the zero-padded signal used by centred framing:
`padded[j] = y[j - pad]`, zero outside. -/
def paddedAt (y : List ℝ) (pad : ℕ) (j : ℕ) : ℝ :=
  if j < pad then 0 else y.getD (j - pad) 0

/-- Number of RMS frames produced by `librosa.feature.rms` with
`center=True`: `1 + (n + 2*(frame_length//2) - frame_length) // hop`. -/
def frame_count (n fl hop : ℕ) : ℕ := 1 + (n + 2 * (fl / 2) - fl) / hop

/-- Frame-wise RMS energy, `librosa.feature.rms(y, frame_length, hop_length)[0]`. -/
noncomputable def rms_frames (y : List ℝ) (fl hop : ℕ) : List ℝ :=
  (List.range (frame_count y.length fl hop)).map (fun t =>
    Real.sqrt ((((List.range fl).map
      (fun j => paddedAt y (fl / 2) (t * hop + j) ^ 2)).sum) / fl))

/-- Normalization `rms / np.max(rms + 1e-6)` of `detect_segments`. -/
noncomputable def rms_normalize (rms : List ℝ) : List ℝ :=
  rms.map (fun r => r / npMax (rms.map (fun x => x + smallEps)))

/-- Model of `_sigmoid(x, k) = 1 / (1 + exp(-k * (x - 0.5)))`. -/
noncomputable def sigmoid (k : ℚ) (x : ℝ) : ℝ :=
  1 / (1 + Real.exp (-(k : ℝ) * (x - 1 / 2)))

/-- Activation scores of `detect_segments`:
`_sigmoid(rms / np.max(rms + 1e-6), k=cfg.sigmoid_k)`. -/
noncomputable def detect_activations (y : List ℝ) (cfg : SpectrogramConfig) : List ℝ :=
  (rms_normalize (rms_frames y cfg.rms_frame_length (detect_segments_hop cfg).toNat)).map
    (sigmoid cfg.sigmoid_k)

/-- Pointwise relation between an activation score and its mask bit:
`mask = rms_sigmoid > cfg.rms_threshold`. -/
def maskRel (thr : ℚ) (a : ℝ) (b : Bool) : Prop := b = true ↔ (thr : ℝ) < a

/-- Relational embedding of `detect_segments(y, sr, cfg)`: the
activation mask is obtained pointwise from the real-valued activation
scores, and the output is the state machine run over that mask.  The
conjunct `1 ≤ hop` records that `librosa` rejects a non-positive hop
before any segment list is produced. -/
def DetectSegmentsRel (y : List ℝ) (sr : ℕ) (cfg : SpectrogramConfig)
    (out : List (ℕ × ℕ)) : Prop :=
  1 ≤ detect_segments_hop cfg ∧
  ∃ mask : List Bool,
    List.Forall₂ (maskRel cfg.rms_threshold) (detect_activations y cfg) mask ∧
    out = detect_segments_from_mask mask (detect_segments_hop cfg).toNat
      (minSamplesOf cfg sr) (minSilenceOf cfg sr) y.length

/-! ## Claim-side predicates for the segment-list invariant -/

/-- Per-segment property: a well-formed extent whose duration meets the
integer minimum-duration threshold, strict when that threshold is ≥ 1. -/
def pairOK (minSamples : ℤ) (p : ℕ × ℕ) : Prop :=
  p.1 ≤ p.2 ∧ minSamples ≤ (p.2 : ℤ) - (p.1 : ℤ) ∧ (1 ≤ minSamples → p.1 < p.2)

/-- Adjacent-pair property: disjoint, ascending, with a silence gap of
at least the integer minimum-silence threshold. -/
def adjOK (minSilence : ℤ) (a b : ℕ × ℕ) : Prop :=
  a.2 < b.1 ∧ minSilence ≤ (b.1 : ℤ) - (a.2 : ℤ)

/-- Full segment-list invariant. -/
def segs_invariant (minSamples minSilence : ℤ) (l : List (ℕ × ℕ)) : Prop :=
  (∀ p ∈ l, pairOK minSamples p) ∧ l.Chain' (adjOK minSilence)

/-! ## The compression / contrast stage of `generate_spectrogram`
(lines 419–439) and the newlook dB pipeline -/

/-- Row mean, `S.mean(axis=1, keepdims=True)`. -/
noncomputable def pyMean (row : List ℝ) : ℝ := row.sum / row.length

/-- Population standard deviation, `S.std(axis=1, keepdims=True)`. -/
noncomputable def pyStd (row : List ℝ) : ℝ :=
  Real.sqrt (((row.map (fun x => (x - pyMean row) ^ 2)).sum) / row.length)

/-- Per-frequency normalization of `generate_spectrogram`:
`(S_db - mean) / (std + 1e-6)` per row. -/
noncomputable def per_frequency_normalize (S : List (List ℝ)) : List (List ℝ) :=
  S.map (fun row => row.map (fun x => (x - pyMean row) / (pyStd row + smallEps)))

/-- Model of `np.percentile(a, q)` (default linear interpolation):
with the values sorted ascending and `h = q/100 * (n-1)`, interpolate
between the neighbouring order statistics. -/
noncomputable def np_percentile (xs : List ℝ) (q : ℚ) : ℝ :=
  let sorted := List.insertionSort (fun a b : ℝ => a ≤ b) xs
  let h : ℚ := q / 100 * ((xs.length : ℚ) - 1)
  let i : ℕ := (⌊h⌋).toNat
  let v0 := sorted.getD i 0
  let v1 := sorted.getD (i + 1) v0
  v0 + ((h - ⌊h⌋ : ℚ) : ℝ) * (v1 - v0)

/-- Contrast-clipping stage of `generate_spectrogram` (lines 419–439):
optional per-frequency normalization, then `vmax`/`vmin` determination
(`np.percentile` or `np.max`; for PCEN `vmin = np.min`, otherwise
`vmin = vmax - dynamic_range`), then `np.clip(S_db, vmin, None)`.
Returns `(clipped matrix, vmin, vmax)`. -/
noncomputable def contrast_stage (pcen_enabled pfn : Bool)
    (contrast_percentile : Option ℚ) (dynamic_range : ℚ)
    (S : List (List ℝ)) : List (List ℝ) × ℝ × ℝ :=
  let S1 := if pfn then per_frequency_normalize S else S
  let vmax : ℝ := match contrast_percentile with
    | some q => np_percentile S1.flatten q
    | none => npMax S1.flatten
  let vmin : ℝ := if pcen_enabled then npMin S1.flatten
    else vmax - (dynamic_range : ℝ)
  (S1.map (fun row => row.map (fun x => max x vmin)), vmin, vmax)

/-- Newlook per-frequency normalization (`spectrogram_engine.py`):
`magnitude / (magnitude.mean(axis=1, keepdims=True) + EPS)`. -/
noncomputable def newlook_per_freq_norm (S : List (List ℝ)) : List (List ℝ) :=
  S.map (fun row => row.map (fun x => x / (pyMean row + EPS32)))

/-- Model of `_power_to_db(magnitude, db_range)` from
`experimental/newlook/spectrogram_engine.py`:
`reference = max(np.max(magnitude), EPS)`,
`db = 20*log10(max(magnitude, EPS) / reference)`,
clipped to `[-abs(db_range), 0]`. -/
noncomputable def power_to_db (S : List (List ℝ)) (db_range : ℚ) : List (List ℝ) :=
  let reference := max (npMax S.flatten) EPS32
  S.map (fun row => row.map (fun x =>
    min (max (20 * Real.logb 10 (max x EPS32 / reference)) (-|(db_range : ℝ)|)) 0))

/-- Retain the rows selected by the boolean mask (`db_spectrogram[mask, :]`). -/
def maskRows (keep : List Bool) (rows : List (List ℝ)) : List (List ℝ) :=
  ((keep.zip rows).filter (fun kr => kr.1)).map (fun kr => kr.2)

/-- Model of the full newlook `compute_spectrogram`.  The STFT magnitude
matrix produced by `scipy.signal.stft` is taken as an input parameter
(the claims quantify over it); the validation steps, the optional
per-frequency normalization, `_power_to_db` and the frequency-row mask
follow the source. -/
noncomputable def compute_spectrogram (audio_len : ℕ) (magnitude : List (List ℝ))
    (sample_rate : ℕ) (n_fft hop_length : ℤ) (window : String)
    (fmin fmax : Option ℚ) (per_freq_norm : Bool) (db_range : ℚ) :
    Except String (List ℚ × List (List ℝ)) := do
  let fk ← compute_spectrogram_freqs audio_len sample_rate n_fft hop_length window fmin fmax
  let mag := if per_freq_norm then newlook_per_freq_norm magnitude else magnitude
  let db := power_to_db mag db_range
  Except.ok (fk.1, maskRows fk.2 db)

/-! ## The PNG write / verify / re-encode logic of `generate_spectrogram`
(lines 471–505), as a machine over the verification outcomes.  The file
system effects are reduced to which files exist afterwards and whether
the surviving output content would pass verification. -/

/-- Outcome of `PIL.Image.verify()` on a written file. -/
inductive VerifyOutcome
  | ok
  | bomb
  | invalid
deriving DecidableEq, Repr

/-- How the render call ends. -/
inductive RenderOutcome
  | success
  | bombRaised
  | fatalError
  | moveError
deriving DecidableEq, Repr

/-- Files on disk after the call: does the output artifact exist, would
its content verify, does the temporary file survive. -/
structure ArtifactState where
  outputExists : Bool
  outputValid : Bool
  tmpExists : Bool
deriving DecidableEq, Repr

/-- Model of the post-save block of `generate_spectrogram`: verify the
written PNG (`v1`); on a decompression bomb delete it and re-raise; on
any other validation failure re-encode once to a temporary file, verify
that (`v2`), and either atomically replace the output (`replaceOk`
tells whether `Path.replace` succeeds), or fail fatally — the `finally`
clause always removes a surviving temporary file.  Returns the outcome,
the final file-system state, and the number of encode attempts. -/
def png_finalize (v1 v2 : VerifyOutcome) (replaceOk : Bool) :
    RenderOutcome × ArtifactState × ℕ :=
  match v1 with
  | .ok => (.success, ⟨true, true, false⟩, 1)
  | .bomb => (.bombRaised, ⟨false, false, false⟩, 1)
  | .invalid =>
    match v2 with
    | .bomb => (.bombRaised, ⟨false, false, false⟩, 2)
    | .invalid => (.fatalError, ⟨true, false, false⟩, 2)
    | .ok =>
      if replaceOk then (.success, ⟨true, true, false⟩, 2)
      else (.moveError, ⟨true, false, false⟩, 2)

/-- Buffer of `n` zero samples. -/
def zeroBuf (n : ℕ) : List ℝ := List.replicate n 0

/-- Concrete buffer for the duration counterexample: a single unit
spike at sample 3 of 8. -/
def spikeBuf : List ℝ := [0, 0, 0, 1, 0, 0, 0, 0]

/-- Configuration used for the duration counterexample: frame length 2,
explicit hop 4, threshold 1/2, steep sigmoid, and half-second minimum
durations. -/
def spikeCfg : SpectrogramConfig :=
  { rms_frame_length := 2, hop_length := 4, rms_threshold := 1/2,
    sigmoid_k := 20, min_segment_duration := 1/2, min_silence_duration := 1/2 }

/-- Loop invariant of the `detect_segments` state machine, indexed by the
frame counter `i`: accepted segments (kept in reverse) are strict,
meet the duration threshold, ended strictly before the current frame
position, and are chained by `adjOK`; an open segment started at or
before the previous frame position and after the last accepted end. -/
def segRunInv (hop : ℕ) (minSamples minSilence : ℤ) (i : ℕ) (st : SegState) : Prop :=
  (∀ p ∈ st.segs, p.1 < p.2 ∧ minSamples ≤ (p.2 : ℤ) - (p.1 : ℤ) ∧ p.2 + hop ≤ i * hop) ∧
  st.segs.Chain' (fun b a => adjOK minSilence a b) ∧
  (st.inSeg = true → st.segStart + hop ≤ i * hop ∧
    ∀ q ∈ st.segs.head?, q.2 < st.segStart)

/-! ## Theorems

First, preservation of the loop invariant by the state machine. -/

theorem segRunInv_mono {hop : ℕ} {ms msil : ℤ} {i j : ℕ} (hij : i ≤ j)
    {st : SegState} (h : segRunInv hop ms msil i st) :
    segRunInv hop ms msil j st := by
  obtain ⟨hsegs, hchain, hopen⟩ := h
  have hstep : i * hop ≤ j * hop := Nat.mul_le_mul_right hop hij
  refine ⟨fun p hp => ?_, hchain, fun hin => ?_⟩
  · obtain ⟨h1, h2, h3⟩ := hsegs p hp
    exact ⟨h1, h2, le_trans h3 hstep⟩
  · obtain ⟨h1, h2⟩ := hopen hin
    exact ⟨le_trans h1 hstep, h2⟩

theorem segClose_inv {hop : ℕ} {ms msil : ℤ} {segs : List (ℕ × ℕ)} {s e : ℕ}
    (hsegs : ∀ p ∈ segs, p.1 < p.2 ∧ ms ≤ (p.2 : ℤ) - (p.1 : ℤ) ∧ p.2 + hop ≤ e)
    (hchain : segs.Chain' (fun b a => adjOK msil a b))
    (hhop : 1 ≤ hop)
    (hs : ∀ q ∈ segs.head?, q.2 < s) (hse : s + hop ≤ e) :
    (∀ p ∈ segClose segs s e ms msil,
        p.1 < p.2 ∧ ms ≤ (p.2 : ℤ) - (p.1 : ℤ) ∧ p.2 + hop ≤ e + hop) ∧
    (segClose segs s e ms msil).Chain' (fun b a => adjOK msil a b) := by
  have hsegs' : ∀ p ∈ segs, p.1 < p.2 ∧ ms ≤ (p.2 : ℤ) - (p.1 : ℤ) ∧ p.2 + hop ≤ e + hop :=
    fun p hp => ⟨(hsegs p hp).1, (hsegs p hp).2.1, by have := (hsegs p hp).2.2; omega⟩
  unfold segClose
  by_cases hacc : ms ≤ (e : ℤ) - (s : ℤ)
  · simp only [hacc, if_true]
    match segs, hsegs, hsegs', hchain, hs with
    | [], _, _, _, _ =>
      refine ⟨fun p hp => ?_, List.chain'_singleton _⟩
      have hp' : p = (s, e) := by simpa using hp
      subst hp'
      exact ⟨by omega, hacc, by omega⟩
    | last :: rest, hsegs, hsegs', hchain, hs =>
      have hlast := hsegs last (List.mem_cons_self last rest)
      have hlast_lt_s : last.2 < s := hs last rfl
      by_cases hmerge : (s : ℤ) - (last.2 : ℤ) < msil
      · simp only [hmerge, if_true]
        refine ⟨fun p hp => ?_, ?_⟩
        · rcases List.mem_cons.mp hp with hp | hp
          · subst hp
            refine ⟨by omega, ?_, by omega⟩
            have := hlast.2.1
            have := hlast.2.2
            omega
          · exact hsegs' p (List.mem_cons_of_mem last hp)
        · rw [List.chain'_cons'] at hchain ⊢
          exact ⟨fun y hy => hchain.1 y hy, hchain.2⟩
      · simp only [hmerge, if_false]
        refine ⟨fun p hp => ?_, ?_⟩
        · rcases List.mem_cons.mp hp with hp | hp
          · subst hp
            exact ⟨by omega, hacc, by omega⟩
          · exact hsegs' p hp
        · rw [List.chain'_cons']
          refine ⟨fun y hy => ?_, hchain⟩
          have hy' : y = last := by
            rw [List.head?_cons, Option.mem_some_iff] at hy
            exact hy.symm
          subst hy'
          exact ⟨hlast_lt_s, by omega⟩
  · simp only [hacc, if_false]
    exact ⟨hsegs', hchain⟩

theorem segStep_inv {hop : ℕ} {ms msil : ℤ} (hhop : 1 ≤ hop) {i : ℕ} {m : Bool}
    {st : SegState} (h : segRunInv hop ms msil i st) :
    segRunInv hop ms msil (i + 1) (segStep hop ms msil i m st) := by
  obtain ⟨hsegs, hchain, hopen⟩ := h
  by_cases hm : m = true <;> by_cases hin : st.inSeg = true
  · -- active, inside: unchanged
    have hst : segStep hop ms msil i m st = st := by
      simp [segStep, hm, hin]
    rw [hst]
    exact segRunInv_mono (Nat.le_succ i) ⟨hsegs, hchain, hopen⟩
  · -- active, outside: open a segment at i * hop
    have hst : segStep hop ms msil i m st =
        { st with inSeg := true, segStart := i * hop } := by
      simp [segStep, hm, hin]
    rw [hst]
    refine ⟨fun p hp => ?_, hchain, fun _ => ⟨by rw [Nat.succ_mul], fun q hq => ?_⟩⟩
    · obtain ⟨h1, h2, h3⟩ := hsegs p hp
      exact ⟨h1, h2, le_trans h3 (Nat.mul_le_mul_right hop (Nat.le_succ i))⟩
    · have := (hsegs q (List.mem_of_mem_head? hq)).2.2
      show q.2 < i * hop
      omega
  · -- silent, inside: close the open segment at i * hop
    have hst : segStep hop ms msil i m st =
        { st with segs := segClose st.segs st.segStart (i * hop) ms msil,
                  inSeg := false } := by
      simp [segStep, hm, hin]
    rw [hst]
    obtain ⟨hstart, hhead⟩ := hopen hin
    have hcl := segClose_inv hsegs hchain hhop hhead hstart
    refine ⟨fun p hp => ?_, hcl.2, fun hfalse => by simp at hfalse⟩
    have := hcl.1 p hp
    refine ⟨this.1, this.2.1, ?_⟩
    have := this.2.2
    rw [Nat.succ_mul]
    omega
  · -- silent, outside: unchanged
    have hst : segStep hop ms msil i m st = st := by
      simp [segStep, hm, hin]
    rw [hst]
    exact segRunInv_mono (Nat.le_succ i) ⟨hsegs, hchain, hopen⟩

theorem segRun_inv {hop : ℕ} {ms msil : ℤ} (hhop : 1 ≤ hop) :
    ∀ (mask : List Bool) (i : ℕ) (st : SegState),
      segRunInv hop ms msil i st →
      segRunInv hop ms msil (i + mask.length) (segRun hop ms msil i mask st)
  | [], i, st, h => by simpa [segRun] using h
  | m :: rest, i, st, h => by
    have hstep := segStep_inv hhop (m := m) h
    have hrec := segRun_inv hhop rest (i + 1) _ hstep
    have heq : segRun hop ms msil i (m :: rest) st =
        segRun hop ms msil (i + 1) rest (segStep hop ms msil i m st) := rfl
    have harith : i + (m :: rest).length = (i + 1) + rest.length := by
      simp [List.length_cons]
      omega
    rw [heq, harith]
    exact hrec

theorem segClose_final {ms msil : ℤ} {segs : List (ℕ × ℕ)} {s n : ℕ}
    (hsegs : ∀ p ∈ segs, p.1 < p.2 ∧ ms ≤ (p.2 : ℤ) - (p.1 : ℤ) ∧ p.2 ≤ n)
    (hchain : segs.Chain' (fun b a => adjOK msil a b))
    (hs : ∀ q ∈ segs.head?, q.2 < s) (hsn : s ≤ n) :
    (∀ p ∈ segClose segs s n ms msil, pairOK ms p) ∧
    (segClose segs s n ms msil).Chain' (fun b a => adjOK msil a b) := by
  have hweak : ∀ p ∈ segs, pairOK ms p := fun p hp =>
    ⟨Nat.le_of_lt (hsegs p hp).1, (hsegs p hp).2.1, fun _ => (hsegs p hp).1⟩
  unfold segClose
  by_cases hacc : ms ≤ (n : ℤ) - (s : ℤ)
  · simp only [hacc, if_true]
    match segs, hsegs, hweak, hchain, hs with
    | [], _, _, _, _ =>
      refine ⟨fun p hp => ?_, List.chain'_singleton _⟩
      have hp' : p = (s, n) := by simpa using hp
      subst hp'
      exact ⟨hsn, hacc, fun h1 => by omega⟩
    | last :: rest, hsegs, hweak, hchain, hs =>
      have hlast := hsegs last (List.mem_cons_self last rest)
      have hlast_lt_s : last.2 < s := hs last rfl
      by_cases hmerge : (s : ℤ) - (last.2 : ℤ) < msil
      · simp only [hmerge, if_true]
        refine ⟨fun p hp => ?_, ?_⟩
        · rcases List.mem_cons.mp hp with hp | hp
          · subst hp
            have h1 := hlast.1
            have h2 := hlast.2.1
            have h3 := hlast.2.2
            exact ⟨by omega, by omega, fun _ => by omega⟩
          · exact hweak p (List.mem_cons_of_mem last hp)
        · rw [List.chain'_cons'] at hchain ⊢
          exact ⟨fun y hy => hchain.1 y hy, hchain.2⟩
      · simp only [hmerge, if_false]
        refine ⟨fun p hp => ?_, ?_⟩
        · rcases List.mem_cons.mp hp with hp | hp
          · subst hp
            exact ⟨hsn, hacc, fun h1 => by omega⟩
          · exact hweak p hp
        · rw [List.chain'_cons']
          refine ⟨fun y hy => ?_, hchain⟩
          have hy' : y = last := by
            rw [List.head?_cons, Option.mem_some_iff] at hy
            exact hy.symm
          subst hy'
          exact ⟨hlast_lt_s, by omega⟩
  · simp only [hacc, if_false]
    exact ⟨hweak, hchain⟩

theorem detect_from_mask_invariant (mask : List Bool) (hop : ℕ) (ms msil : ℤ)
    (n : ℕ) (hhop : 1 ≤ hop) (hn : (mask.length - 1) * hop ≤ n) :
    segs_invariant ms msil (detect_segments_from_mask mask hop ms msil n) := by
  have hinit : segRunInv hop ms msil 0 ⟨[], false, 0⟩ := by
    refine ⟨fun p hp => absurd hp (List.not_mem_nil p), List.chain'_nil, fun h => ?_⟩
    simp at h
  have hfin := segRun_inv hhop mask 0 _ hinit
  rw [Nat.zero_add] at hfin
  obtain ⟨hsegs, hchain, hopen⟩ := hfin
  set st := segRun hop ms msil 0 mask ⟨[], false, 0⟩ with hst
  unfold detect_segments_from_mask
  rw [← hst]
  by_cases hin : st.inSeg = true
  · simp only [hin, if_true]
    -- the mask cannot be empty if a segment is open
    have hmask : mask ≠ [] := by
      intro hemp
      rw [hemp] at hst
      simp [segRun] at hst
      rw [hst] at hin
      simp at hin
    obtain ⟨k, hk⟩ : ∃ k, mask.length = k + 1 :=
      ⟨mask.length - 1, by
        have := List.length_pos.mpr hmask
        omega⟩
    obtain ⟨hstart, hhead⟩ := hopen hin
    rw [hk] at hstart hsegs
    rw [hk] at hn
    simp only [Nat.add_sub_cancel] at hn
    have hstart_n : st.segStart ≤ n := by
      rw [Nat.succ_mul] at hstart
      omega
    have hsegs_n : ∀ p ∈ st.segs, p.1 < p.2 ∧ ms ≤ (p.2 : ℤ) - (p.1 : ℤ) ∧ p.2 ≤ n := by
      intro p hp
      obtain ⟨h1, h2, h3⟩ := hsegs p hp
      rw [Nat.succ_mul] at h3
      exact ⟨h1, h2, by omega⟩
    have hfinal := segClose_final hsegs_n hchain hhead hstart_n
    refine ⟨fun p hp => hfinal.1 p (List.mem_reverse.mp hp), ?_⟩
    exact List.chain'_reverse.mpr hfinal.2
  · simp only [hin, if_false]
    refine ⟨fun p hp => ?_, List.chain'_reverse.mpr hchain⟩
    obtain ⟨h1, h2, _⟩ := hsegs p (List.mem_reverse.mp hp)
    exact ⟨Nat.le_of_lt h1, h2, fun _ => h1⟩

/-! ### Frame counting and activation lengths -/

theorem frame_count_pred_mul_le (n fl hop : ℕ) :
    (frame_count n fl hop - 1) * hop ≤ n := by
  unfold frame_count
  simp only [Nat.add_sub_cancel_left]
  have h1 : (n + 2 * (fl / 2) - fl) / hop * hop ≤ n + 2 * (fl / 2) - fl :=
    Nat.div_mul_le_self _ _
  omega

theorem detect_activations_length (y : List ℝ) (cfg : SpectrogramConfig) :
    (detect_activations y cfg).length =
      frame_count y.length cfg.rms_frame_length (detect_segments_hop cfg).toNat := by
  simp [detect_activations, rms_normalize, rms_frames]

/-! ### Runs over constant masks -/

theorem segRun_all_true {hop : ℕ} {ms msil : ℤ} :
    ∀ (L i : ℕ) (st : SegState), st.inSeg = true →
      segRun hop ms msil i (List.replicate L true) st = st
  | 0, _, _, _ => rfl
  | L + 1, i, st, hin => by
    have hstep : segStep hop ms msil i true st = st := by
      simp [segStep, hin]
    have : segRun hop ms msil i (List.replicate (L + 1) true) st =
        segRun hop ms msil (i + 1) (List.replicate L true) (segStep hop ms msil i true st) := rfl
    rw [this, hstep]
    exact segRun_all_true L (i + 1) st hin

theorem segRun_all_false {hop : ℕ} {ms msil : ℤ} :
    ∀ (L i : ℕ) (st : SegState), st.inSeg = false →
      segRun hop ms msil i (List.replicate L false) st = st
  | 0, _, _, _ => rfl
  | L + 1, i, st, hin => by
    have hstep : segStep hop ms msil i false st = st := by
      simp [segStep, hin]
    have : segRun hop ms msil i (List.replicate (L + 1) false) st =
        segRun hop ms msil (i + 1) (List.replicate L false) (segStep hop ms msil i false st) := rfl
    rw [this, hstep]
    exact segRun_all_false L (i + 1) st hin

theorem detect_from_mask_all_true (L hop : ℕ) (ms msil : ℤ) (n : ℕ) (hL : 1 ≤ L) :
    detect_segments_from_mask (List.replicate L true) hop ms msil n =
      if ms ≤ (n : ℤ) then [(0, n)] else [] := by
  obtain ⟨K, hK⟩ : ∃ K, L = K + 1 := ⟨L - 1, by omega⟩
  subst hK
  unfold detect_segments_from_mask
  have hopen : segStep hop ms msil 0 true ⟨[], false, 0⟩ = ⟨[], true, 0 * hop⟩ := by
    simp [segStep]
  have hrun : segRun hop ms msil 0 (List.replicate (K + 1) true) ⟨[], false, 0⟩ =
      ⟨[], true, 0 * hop⟩ := by
    have h1 : segRun hop ms msil 0 (List.replicate (K + 1) true) ⟨[], false, 0⟩ =
        segRun hop ms msil 1 (List.replicate K true) (segStep hop ms msil 0 true ⟨[], false, 0⟩) := rfl
    rw [h1, hopen]
    exact segRun_all_true K 1 _ rfl
  rw [hrun]
  simp only [if_true]
  unfold segClose
  by_cases hacc : ms ≤ (n : ℤ) - ((0 * hop : ℕ) : ℤ)
  · have hacc' : ms ≤ (n : ℤ) := by
      simpa using hacc
    simp [hacc, hacc', Nat.zero_mul]
  · have hacc' : ¬ ms ≤ (n : ℤ) := by
      simpa using hacc
    simp [hacc, hacc']

theorem detect_from_mask_all_false (L hop : ℕ) (ms msil : ℤ) (n : ℕ) :
    detect_segments_from_mask (List.replicate L false) hop ms msil n = [] := by
  unfold detect_segments_from_mask
  rw [segRun_all_false L 0 _ rfl]
  simp

/-! ### Masks obtained from constant activation sequences -/

theorem forall2_mask_all_true {thr : ℚ} {σ : ℝ} (h : (thr : ℝ) < σ) :
    ∀ {L : ℕ} {mask : List Bool},
      List.Forall₂ (maskRel thr) (List.replicate L σ) mask →
      mask = List.replicate L true := by
  intro L
  induction L with
  | zero =>
    intro mask hm
    rw [List.replicate_zero] at hm
    rw [List.forall₂_nil_left_iff] at hm
    simp [hm]
  | succ K ih =>
    intro mask hm
    rw [List.replicate_succ] at hm
    cases mask with
    | nil => exact absurd hm (by simp)
    | cons b rest =>
      rw [List.forall₂_cons] at hm
      have hb : b = true := hm.1.mpr h
      rw [List.replicate_succ, hb, ih hm.2]

theorem forall2_mask_all_false {thr : ℚ} {σ : ℝ} (h : σ ≤ (thr : ℝ)) :
    ∀ {L : ℕ} {mask : List Bool},
      List.Forall₂ (maskRel thr) (List.replicate L σ) mask →
      mask = List.replicate L false := by
  intro L
  induction L with
  | zero =>
    intro mask hm
    rw [List.replicate_zero] at hm
    rw [List.forall₂_nil_left_iff] at hm
    simp [hm]
  | succ K ih =>
    intro mask hm
    rw [List.replicate_succ] at hm
    cases mask with
    | nil => exact absurd hm (by simp)
    | cons b rest =>
      rw [List.forall₂_cons] at hm
      have hb : b = false := by
        cases b with
        | false => rfl
        | true => exact absurd (hm.1.mp rfl) (not_lt.mpr h)
      rw [List.replicate_succ, hb, ih hm.2]

theorem forall2_mask_exists_true {thr : ℚ} {σ : ℝ} (h : (thr : ℝ) < σ) (L : ℕ) :
    List.Forall₂ (maskRel thr) (List.replicate L σ) (List.replicate L true) := by
  induction L with
  | zero => simp
  | succ K ih =>
    rw [List.replicate_succ, List.replicate_succ, List.forall₂_cons]
    exact ⟨⟨fun _ => h, fun _ => rfl⟩, ih⟩

/-! ### The all-zero buffer: RMS, normalization, activations -/

theorem getD_replicate_zero (n i : ℕ) : (List.replicate n (0 : ℝ)).getD i 0 = 0 := by
  induction n generalizing i with
  | zero => simp [List.getD]
  | succ k ih =>
    cases i with
    | zero => simp [List.replicate_succ]
    | succ j =>
      rw [List.replicate_succ]
      simpa [List.getD] using ih j

theorem paddedAt_zeroBuf (n pad j : ℕ) : paddedAt (zeroBuf n) pad j = 0 := by
  unfold paddedAt zeroBuf
  split
  · rfl
  · exact getD_replicate_zero n (j - pad)

theorem rms_frames_zeroBuf (n fl hop : ℕ) :
    rms_frames (zeroBuf n) fl hop = List.replicate (frame_count n fl hop) 0 := by
  unfold rms_frames
  have hlen : (zeroBuf n).length = n := List.length_replicate n 0
  rw [hlen]
  apply List.eq_replicate.mpr
  refine ⟨by simp, fun b hb => ?_⟩
  rw [List.mem_map] at hb
  obtain ⟨t, _, ht⟩ := hb
  rw [← ht]
  have hsum : ((List.range fl).map
      (fun j => paddedAt (zeroBuf n) (fl / 2) (t * hop + j) ^ 2)).sum = 0 := by
    apply List.sum_eq_zero
    intro x hx
    rw [List.mem_map] at hx
    obtain ⟨j, _, hj⟩ := hx
    rw [← hj, paddedAt_zeroBuf]
    norm_num
  rw [hsum]
  simp [Real.sqrt_zero]

theorem rms_normalize_replicate_zero (L : ℕ) :
    rms_normalize (List.replicate L (0 : ℝ)) = List.replicate L 0 := by
  unfold rms_normalize
  apply List.eq_replicate.mpr
  refine ⟨by simp, fun b hb => ?_⟩
  rw [List.mem_map] at hb
  obtain ⟨r, hr, hb⟩ := hb
  rw [List.eq_of_mem_replicate hr] at hb
  rw [← hb]
  exact zero_div _

theorem detect_activations_zeroBuf (n : ℕ) (cfg : SpectrogramConfig) :
    detect_activations (zeroBuf n) cfg =
      List.replicate (frame_count n cfg.rms_frame_length (detect_segments_hop cfg).toNat)
        (sigmoid cfg.sigmoid_k 0) := by
  unfold detect_activations
  rw [rms_frames_zeroBuf, rms_normalize_replicate_zero, List.map_replicate]

/-! ### Bounds on the sigmoid soft-threshold -/

theorem sigmoid_pos (k : ℚ) (x : ℝ) : 0 < sigmoid k x := by
  unfold sigmoid
  positivity

theorem sigmoid_le_half {k : ℚ} (hk : 0 ≤ k) {x : ℝ} (hx : x ≤ 1 / 2) :
    sigmoid k x ≤ 1 / 2 := by
  unfold sigmoid
  have hk' : (0 : ℝ) ≤ (k : ℝ) := by exact_mod_cast hk
  have harg : 0 ≤ -(k : ℝ) * (x - 1 / 2) := by nlinarith
  have hexp : 1 ≤ Real.exp (-(k : ℝ) * (x - 1 / 2)) := Real.one_le_exp harg
  rw [div_le_div_iff (by positivity) (by norm_num)]
  linarith

theorem half_lt_sigmoid {k : ℚ} (hk : 0 < k) {x : ℝ} (hx : 1 / 2 < x) :
    1 / 2 < sigmoid k x := by
  unfold sigmoid
  have harg : -(k : ℝ) * (x - 1 / 2) < 0 := by
    apply mul_neg_of_neg_of_pos
    · simpa using (by exact_mod_cast hk : (0 : ℝ) < (k : ℝ))
    · linarith
  have hexp : Real.exp (-(k : ℝ) * (x - 1 / 2)) < 1 := Real.exp_lt_one_iff.mpr harg
  have hpos : 0 < 1 + Real.exp (-(k : ℝ) * (x - 1 / 2)) := by positivity
  rw [div_lt_div_iff (by norm_num) hpos]
  linarith

theorem default_threshold_lt_sigmoid_zero :
    ((1 / 10 : ℚ) : ℝ) < sigmoid (3 / 20) 0 := by
  unfold sigmoid
  have harg : (-(((3 : ℚ) / 20 : ℚ) : ℝ) * ((0 : ℝ) - 1 / 2)) = 3 / 40 := by
    push_cast
    ring
  rw [harg]
  have hexp : Real.exp (3 / 40) < 9 := by
    have h1 : Real.exp ((3 : ℝ) / 40) ≤ Real.exp 1 := Real.exp_le_exp.mpr (by norm_num)
    have h2 : Real.exp 1 < 2.7182818286 := Real.exp_one_lt_d9
    linarith
  have hpos : 0 < 1 + Real.exp ((3 : ℝ) / 40) := by positivity
  rw [show (((1 : ℚ) / 10 : ℚ) : ℝ) = 1 / 10 by norm_num]
  rw [div_lt_div_iff (by norm_num) hpos]
  linarith

/-! ### The detection relation on all-zero buffers -/

theorem detect_rel_zeroBuf (n sr : ℕ) (cfg : SpectrogramConfig)
    (hhop : 1 ≤ detect_segments_hop cfg)
    (hσ : (cfg.rms_threshold : ℝ) < sigmoid cfg.sigmoid_k 0) :
    DetectSegmentsRel (zeroBuf n) sr cfg
      (if minSamplesOf cfg sr ≤ (n : ℤ) then [(0, n)] else []) := by
  set L := frame_count n cfg.rms_frame_length (detect_segments_hop cfg).toNat with hL
  refine ⟨hhop, List.replicate L true, ?_, ?_⟩
  · rw [detect_activations_zeroBuf]
    exact forall2_mask_exists_true hσ L
  · have hL1 : 1 ≤ L := by
      rw [hL]
      exact Nat.le_add_right 1 _
    have hlen : (zeroBuf n).length = n := List.length_replicate n 0
    rw [hlen]
    exact (detect_from_mask_all_true L _ _ _ n hL1).symm

theorem detect_rel_zeroBuf_empty (n sr : ℕ) (cfg : SpectrogramConfig)
    (hout : List (ℕ × ℕ))
    (h : DetectSegmentsRel (zeroBuf n) sr cfg hout)
    (hσ : sigmoid cfg.sigmoid_k 0 ≤ (cfg.rms_threshold : ℝ)) :
    hout = [] := by
  obtain ⟨hhop, mask, hf2, hout_eq⟩ := h
  rw [detect_activations_zeroBuf] at hf2
  rw [forall2_mask_all_false hσ hf2] at hout_eq
  rw [hout_eq]
  exact detect_from_mask_all_false _ _ _ _ _

theorem detect_rel_zeroBuf_full (n sr : ℕ) (cfg : SpectrogramConfig)
    (hout : List (ℕ × ℕ))
    (h : DetectSegmentsRel (zeroBuf n) sr cfg hout)
    (hσ : (cfg.rms_threshold : ℝ) < sigmoid cfg.sigmoid_k 0) :
    hout = if minSamplesOf cfg sr ≤ (n : ℤ) then [(0, n)] else [] := by
  obtain ⟨hhop, mask, hf2, hout_eq⟩ := h
  rw [detect_activations_zeroBuf] at hf2
  rw [forall2_mask_all_true hσ hf2] at hout_eq
  rw [hout_eq]
  have hL1 : 1 ≤ frame_count n cfg.rms_frame_length (detect_segments_hop cfg).toNat :=
    Nat.le_add_right 1 _
  have hlen : (zeroBuf n).length = n := List.length_replicate n 0
  rw [hlen]
  exact detect_from_mask_all_true _ _ _ _ n hL1

/-- C1 (amended): for every buffer, rate and configuration, the segment
list produced by `detect_segments` satisfies: every segment has
`start ≤ end` with strictness whenever the integer duration threshold
`int(min_segment_duration * sr)` is at least 1, every duration is at
least that integer threshold, and the list is sorted ascending,
pairwise non-overlapping, with adjacent gaps of at least the integer
silence threshold `int(min_silence_duration * sr)`. -/
theorem detect_segments_invariant_holds (y : List ℝ) (sr : ℕ)
    (cfg : SpectrogramConfig) (out : List (ℕ × ℕ))
    (h : DetectSegmentsRel y sr cfg out) :
    segs_invariant (minSamplesOf cfg sr) (minSilenceOf cfg sr) out := by
  obtain ⟨hhop, mask, hf2, hout⟩ := h
  subst hout
  apply detect_from_mask_invariant
  · omega
  · have hlen : mask.length = (detect_activations y cfg).length :=
      (List.Forall₂.length_eq hf2).symm
    rw [hlen, detect_activations_length]
    exact frame_count_pred_mul_le _ _ _

/-- Witness for `detect_segments_invariant_holds` at a concrete run:
the all-zero 12-sample buffer at 40 Hz under the default configuration
yields `[(0, 12)]`, which satisfies the invariant. -/
theorem detect_segments_invariant_witness :
    segs_invariant (minSamplesOf {} 40) (minSilenceOf {} 40) [(0, 12)] := by
  have hrel := detect_rel_zeroBuf 12 40 {} (by decide) default_threshold_lt_sigmoid_zero
  rw [if_pos (by norm_num [minSamplesOf, pyInt])] at hrel
  exact detect_segments_invariant_holds (zeroBuf 12) 40 {} [(0, 12)] hrel

/-- C2 (amended): on an all-zero buffer `detect_segments` returns
without failing; the result is empty exactly when the constant
activation `sigmoid(0)` does not exceed `rms_threshold` (or the buffer
is shorter than the minimum duration) — otherwise a single segment
spanning the whole buffer is returned.  Under the module defaults
(`sigmoid_k = 0.15`, `rms_threshold = 0.10`) a silent buffer therefore
produces one full-length segment, not an empty list. -/
theorem detect_segments_silence_behaviour (n sr : ℕ) (cfg : SpectrogramConfig)
    (out : List (ℕ × ℕ)) (h : DetectSegmentsRel (zeroBuf n) sr cfg out) :
    (sigmoid cfg.sigmoid_k 0 ≤ (cfg.rms_threshold : ℝ) → out = []) ∧
    ((cfg.rms_threshold : ℝ) < sigmoid cfg.sigmoid_k 0 →
      out = if minSamplesOf cfg sr ≤ (n : ℤ) then [(0, n)] else []) :=
  ⟨fun hσ => detect_rel_zeroBuf_empty n sr cfg out h hσ,
   fun hσ => detect_rel_zeroBuf_full n sr cfg out h hσ⟩

/-- Witness for `detect_segments_silence_behaviour` at the default
configuration on an 8-sample silent buffer at 20 Hz. -/
theorem detect_segments_silence_witness :
    (sigmoid ({} : SpectrogramConfig).sigmoid_k 0 ≤
        (({} : SpectrogramConfig).rms_threshold : ℝ) → ([(0, 8)] : List (ℕ × ℕ)) = []) ∧
    ((({} : SpectrogramConfig).rms_threshold : ℝ) <
        sigmoid ({} : SpectrogramConfig).sigmoid_k 0 →
      ([(0, 8)] : List (ℕ × ℕ)) = if minSamplesOf {} 20 ≤ (8 : ℤ) then [(0, 8)] else []) := by
  apply detect_segments_silence_behaviour 8 20 {} [(0, 8)]
  have hrel := detect_rel_zeroBuf 8 20 {} (by decide) default_threshold_lt_sigmoid_zero
  rwa [if_pos (by norm_num [minSamplesOf, pyInt])] at hrel

/-- Counterexample to C2 as stated: the all-zero 8-sample buffer at
20 Hz under the default configuration yields the non-empty segment list
`[(0, 8)]` — the silent clip is not treated as producing zero
segments, because the default sigmoid of a zero activation,
`1/(1+exp(0.075)) ≈ 0.48`, exceeds the default threshold `0.10`. -/
theorem detect_segments_silence_counterexample :
    DetectSegmentsRel (zeroBuf 8) 20 {} [(0, 8)] ∧
      ([(0, 8)] : List (ℕ × ℕ)) ≠ [] := by
  constructor
  · have hrel := detect_rel_zeroBuf 8 20 {} (by decide) default_threshold_lt_sigmoid_zero
    rwa [if_pos (by norm_num [minSamplesOf, pyInt])] at hrel
  · decide

/-! ### The spike buffer: concrete activations and the duration counterexample -/

theorem rms_frames_spike : rms_frames spikeBuf 2 4 = [0, Real.sqrt (1 / 2), 0] := by
  have hfc : frame_count spikeBuf.length 2 4 = 3 := by decide
  unfold rms_frames
  rw [hfc]
  have hrange : List.range 3 = [0, 1, 2] := rfl
  have hrange2 : List.range 2 = [0, 1] := rfl
  rw [hrange, hrange2]
  simp only [List.map_cons, List.map_nil, List.sum_cons, List.sum_nil]
  have p0 : paddedAt spikeBuf (2 / 2) (0 * 4 + 0) = 0 := rfl
  have p1 : paddedAt spikeBuf (2 / 2) (0 * 4 + 1) = 0 := rfl
  have p2 : paddedAt spikeBuf (2 / 2) (1 * 4 + 0) = 1 := rfl
  have p3 : paddedAt spikeBuf (2 / 2) (1 * 4 + 1) = 0 := rfl
  have p4 : paddedAt spikeBuf (2 / 2) (2 * 4 + 0) = 0 := rfl
  have p5 : paddedAt spikeBuf (2 / 2) (2 * 4 + 1) = 0 := rfl
  rw [p0, p1, p2, p3, p4, p5]
  norm_num

theorem npMax_spike :
    npMax ([0, Real.sqrt (1 / 2), 0].map (fun x => x + smallEps)) =
      Real.sqrt (1 / 2) + smallEps := by
  have hs : (0 : ℝ) ≤ Real.sqrt (1 / 2) := Real.sqrt_nonneg _
  have hε : (0 : ℝ) < smallEps := by norm_num [smallEps]
  simp only [List.map_cons, List.map_nil, npMax, List.foldl]
  rw [show max (0 + smallEps) (Real.sqrt (1 / 2) + smallEps) =
      Real.sqrt (1 / 2) + smallEps from max_eq_right (by linarith)]
  rw [max_eq_left (by linarith)]

theorem eps_lt_sqrt_half : smallEps < Real.sqrt (1 / 2) := by
  rw [show smallEps = ((1 : ℝ) / 1000000) from rfl]
  have h : ((1 : ℝ) / 1000000) ^ 2 < 1 / 2 := by norm_num
  exact (Real.lt_sqrt (by norm_num)).mpr h

theorem detect_activations_spike :
    detect_activations spikeBuf spikeCfg =
      [sigmoid 20 0,
       sigmoid 20 (Real.sqrt (1 / 2) / (Real.sqrt (1 / 2) + smallEps)),
       sigmoid 20 0] := by
  show (rms_normalize (rms_frames spikeBuf 2 4)).map (sigmoid 20) = _
  rw [rms_frames_spike]
  unfold rms_normalize
  rw [npMax_spike]
  simp only [List.map_cons, List.map_nil, zero_div]

theorem detect_rel_spike : DetectSegmentsRel spikeBuf 9 spikeCfg [(4, 8)] := by
  have hs : (0 : ℝ) ≤ Real.sqrt (1 / 2) := Real.sqrt_nonneg _
  have hε : (0 : ℝ) < smallEps := by norm_num [smallEps]
  have hεs := eps_lt_sqrt_half
  have hthr : ((spikeCfg.rms_threshold : ℚ) : ℝ) = 1 / 2 := by
    norm_num [spikeCfg]
  have hlow : ¬ ((spikeCfg.rms_threshold : ℚ) : ℝ) < sigmoid 20 0 := by
    rw [hthr]
    exact not_lt.mpr (sigmoid_le_half (by norm_num) (by norm_num))
  have hhigh : ((spikeCfg.rms_threshold : ℚ) : ℝ) <
      sigmoid 20 (Real.sqrt (1 / 2) / (Real.sqrt (1 / 2) + smallEps)) := by
    rw [hthr]
    apply half_lt_sigmoid (by norm_num)
    rw [lt_div_iff (by linarith)]
    linarith
  refine ⟨by decide, [false, true, false], ?_, ?_⟩
  · rw [detect_activations_spike]
    refine List.Forall₂.cons ⟨fun h => Bool.noConfusion h, fun h => absurd h hlow⟩
      (List.Forall₂.cons ⟨fun _ => hhigh, fun _ => rfl⟩
        (List.Forall₂.cons ⟨fun h => Bool.noConfusion h, fun h => absurd h hlow⟩
          List.Forall₂.nil))
  · have hms : minSamplesOf spikeCfg 9 = 4 := by
      norm_num [minSamplesOf, pyInt, spikeCfg]
    have hmsil : minSilenceOf spikeCfg 9 = 4 := by
      norm_num [minSilenceOf, pyInt, spikeCfg]
    rw [hms, hmsil]
    decide

/-- Counterexample to C1 as stated: with `min_segment_duration = 0.5`
and `sample_rate = 9` the code accepts a segment of 4 samples because
it compares against the truncation `int(0.5 * 9) = 4`, yet the real
product `min_segment_duration * sample_rate = 4.5` exceeds the returned
segment's duration — the claim's "duration ≥ min_segment_duration *
sample_rate" fails. -/
theorem detect_segments_duration_counterexample :
    DetectSegmentsRel spikeBuf 9 spikeCfg [(4, 8)] ∧
      ¬ (spikeCfg.min_segment_duration * (9 : ℚ) ≤ ((8 : ℚ) - (4 : ℚ))) :=
  ⟨detect_rel_spike, by norm_num [spikeCfg]⟩

/-! ### Hop-length coupling (C9) -/

/-- C9 (amended): `detect_segments` and `generate_spectrogram` derive
the frame hop from the same call on the same configuration fields, so
the two hops are always equal; when no positive explicit `hop_length`
is supplied the shared hop is the truncation toward zero
`int(n_fft * hop_ratio)`, which equals `floor(n_fft * hop_ratio)`
whenever `hop_ratio ≥ 0`. -/
theorem hop_consistency (cfg : SpectrogramConfig) :
    detect_segments_hop cfg = generate_spectrogram_hop cfg ∧
    (¬ 0 < cfg.hop_length → 0 ≤ cfg.hop_ratio →
      detect_segments_hop cfg = ⌊(cfg.n_fft : ℚ) * cfg.hop_ratio⌋) := by
  refine ⟨rfl, fun hneg hratio => ?_⟩
  show (if 0 < cfg.hop_length then cfg.hop_length
      else if 0 ≤ (cfg.n_fft : ℚ) * cfg.hop_ratio then ⌊(cfg.n_fft : ℚ) * cfg.hop_ratio⌋
      else ⌈(cfg.n_fft : ℚ) * cfg.hop_ratio⌉) = ⌊(cfg.n_fft : ℚ) * cfg.hop_ratio⌋
  rw [if_neg hneg, if_pos (mul_nonneg (by positivity) hratio)]

/-- Witness for `hop_consistency`, discharging its hypotheses at a
configuration with explicit hop 0 and the default ratio. -/
theorem hop_consistency_witness :
    detect_segments_hop { hop_length := 0 } =
      ⌊((({ hop_length := 0 } : SpectrogramConfig).n_fft : ℚ) *
        ({ hop_length := 0 } : SpectrogramConfig).hop_ratio)⌋ :=
  (hop_consistency { hop_length := 0 }).2 (by decide) (by norm_num)

/-- Counterexample to C9 as stated: with `n_fft = 4`, `hop_ratio = -0.3`
and no positive explicit hop, the code computes `int(-1.2) = -1`
(truncation toward zero), while `floor(-1.2) = -2`. -/
theorem hop_floor_counterexample :
    detect_segments_hop { n_fft := 4, hop_ratio := -3/10, hop_length := 0 } = -1 ∧
      ⌊((({ n_fft := 4, hop_ratio := -3/10, hop_length := 0 } : SpectrogramConfig).n_fft : ℚ) *
        ({ n_fft := 4, hop_ratio := -3/10, hop_length := 0 } : SpectrogramConfig).hop_ratio)⌋ =
        -2 := by
  constructor
  · show calculate_hop_length 4 (-3/10) (some 0) = -1
    show (if (0 : ℤ) < 0 then (0 : ℤ)
        else if 0 ≤ ((4 : ℕ) : ℚ) * (-3/10) then ⌊((4 : ℕ) : ℚ) * (-3/10)⌋
        else ⌈((4 : ℕ) : ℚ) * (-3/10)⌉) = -1
    rw [if_neg (by norm_num), if_neg (by norm_num), Int.ceil_eq_iff]
    constructor <;> norm_num
  · show ⌊((4 : ℚ) * (-3/10))⌋ = -2
    norm_num

/-! ### Frequency-bound auto-correction vs. rejection (C4) -/

/-- C4 (amended): `generate_spectrogram` auto-corrects a violated
frequency window by lowering `fmin` to `fmax/2` (restoring
`0 ≤ fmin < fmax`), provided the capped `fmax` is positive; the newlook
path instead raises a `ValueError` from `clamp_frequency_range` exactly
when `max(0, fmin) ≥ min(fmax, nyquist)` — it never auto-corrects. -/
theorem freq_bound_correction_behaviour :
    (∀ (fmin fmax : Option ℚ) (sr : ℕ),
      raw_effective_fmax fmax sr ≤ raw_effective_fmin fmin →
      0 < raw_effective_fmax fmax sr →
      0 ≤ (effective_freq_bounds fmin fmax sr).1 ∧
      (effective_freq_bounds fmin fmax sr).1 < (effective_freq_bounds fmin fmax sr).2) ∧
    (∀ (fmin : ℚ) (fmax : Option ℚ) (sr : ℕ),
      (∃ e, clamp_frequency_range fmin fmax sr = Except.error e) ↔
        (match fmax with
         | none => (sr : ℚ) / 2
         | some v => min v ((sr : ℚ) / 2)) ≤ max 0 fmin) := by
  constructor
  · intro fmin fmax sr hle hpos
    have hif : effective_freq_bounds fmin fmax sr =
        (max 0 (raw_effective_fmax fmax sr * (1/2)), raw_effective_fmax fmax sr) := by
      show (if raw_effective_fmax fmax sr ≤ raw_effective_fmin fmin
          then (max 0 (raw_effective_fmax fmax sr * (1/2)), raw_effective_fmax fmax sr)
          else (raw_effective_fmin fmin, raw_effective_fmax fmax sr)) = _
      rw [if_pos hle]
    rw [hif]
    exact ⟨le_max_left 0 _, max_lt hpos (by linarith)⟩
  · intro fmin fmax sr
    cases fmax with
    | none =>
      have hclamp : clamp_frequency_range fmin none sr =
          (if (sr : ℚ) / 2 ≤ max 0 fmin
           then Except.error ("fmin must be lower than fmax and Nyquist")
           else Except.ok (max 0 fmin, (sr : ℚ) / 2)) := rfl
      rw [hclamp]
      by_cases h : (sr : ℚ) / 2 ≤ max 0 fmin
      · rw [if_pos h]
        exact ⟨fun _ => h, fun _ => ⟨_, rfl⟩⟩
      · rw [if_neg h]
        exact ⟨fun he => absurd he.choose_spec (by simp), fun hh => absurd hh h⟩
    | some v =>
      have hclamp : clamp_frequency_range fmin (some v) sr =
          (if min v ((sr : ℚ) / 2) ≤ max 0 fmin
           then Except.error ("fmin must be lower than fmax and Nyquist")
           else Except.ok (max 0 fmin, min v ((sr : ℚ) / 2))) := rfl
      rw [hclamp]
      by_cases h : min v ((sr : ℚ) / 2) ≤ max 0 fmin
      · rw [if_pos h]
        exact ⟨fun _ => h, fun _ => ⟨_, rfl⟩⟩
      · rw [if_neg h]
        exact ⟨fun he => absurd he.choose_spec (by simp), fun hh => absurd hh h⟩

/-- Witness for `freq_bound_correction_behaviour` at
`fmin = 5000 > fmax = 4000`, `sr = 48000`. -/
theorem freq_bound_correction_witness :
    (0 ≤ (effective_freq_bounds (some 5000) (some 4000) 48000).1 ∧
      (effective_freq_bounds (some 5000) (some 4000) 48000).1 <
        (effective_freq_bounds (some 5000) (some 4000) 48000).2) ∧
    (∃ e, clamp_frequency_range 5000 (some 4000) 48000 = Except.error e) := by
  constructor
  · exact freq_bound_correction_behaviour.1 (some 5000) (some 4000) 48000
      (by norm_num [raw_effective_fmax, raw_effective_fmin, pyOr])
      (by norm_num [raw_effective_fmax, pyOr])
  · exact (freq_bound_correction_behaviour.2 5000 (some 4000) 48000).mpr (by norm_num)

/-- Counterexample to C4 as stated: for `fmin = 5000`, `fmax = 4000`,
`sr = 48000` (so `fmin ≥ fmax` after clamping to Nyquist), the newlook
`clamp_frequency_range` raises a `ValueError` instead of auto-correcting
and proceeding. -/
theorem clamp_raises_counterexample :
    clamp_frequency_range 5000 (some 4000) 48000 =
      Except.error ("fmin must be lower than fmax and Nyquist") := by
  show (if min (4000 : ℚ) ((48000 : ℚ) / 2) ≤ max 0 5000
      then Except.error ("fmin must be lower than fmax and Nyquist")
      else Except.ok (max 0 5000, min (4000 : ℚ) ((48000 : ℚ) / 2))) =
    Except.error ("fmin must be lower than fmax and Nyquist")
  rw [if_pos (by norm_num)]

/-! ### PNG write / verify / re-encode behaviour (C8) -/

/-- C8 (amended): the renderer re-decodes the written PNG and, on a
validation failure, re-encodes exactly once; if the second attempt is
also invalid the call aborts with a fatal error and the temporary file
is removed — but the original, corrupt artifact at the output path is
left on disk (only decompression-bomb failures delete the output). -/
theorem png_finalize_behaviour (v1 v2 : VerifyOutcome) (r : Bool) :
    (png_finalize v1 v2 r).2.2 ≤ 2 ∧
    ((png_finalize v1 v2 r).2.2 = 2 ↔ v1 = VerifyOutcome.invalid) ∧
    (v1 = VerifyOutcome.invalid → v2 = VerifyOutcome.invalid →
      (png_finalize v1 v2 r).1 = RenderOutcome.fatalError ∧
      (png_finalize v1 v2 r).2.1.tmpExists = false ∧
      (png_finalize v1 v2 r).2.1.outputExists = true ∧
      (png_finalize v1 v2 r).2.1.outputValid = false) ∧
    ((png_finalize v1 v2 r).1 = RenderOutcome.success →
      (png_finalize v1 v2 r).2.1.outputValid = true ∧
      (png_finalize v1 v2 r).2.1.tmpExists = false) := by
  cases v1 <;> cases v2 <;> cases r <;> simp [png_finalize]

/-- Witness for `png_finalize_behaviour` on the double-failure path. -/
theorem png_finalize_witness :
    (png_finalize VerifyOutcome.invalid VerifyOutcome.invalid true).1 =
        RenderOutcome.fatalError ∧
      (png_finalize VerifyOutcome.invalid VerifyOutcome.invalid true).2.1.tmpExists = false ∧
      (png_finalize VerifyOutcome.invalid VerifyOutcome.invalid true).2.1.outputExists = true ∧
      (png_finalize VerifyOutcome.invalid VerifyOutcome.invalid true).2.1.outputValid = false :=
  (png_finalize_behaviour VerifyOutcome.invalid VerifyOutcome.invalid true).2.2.1 rfl rfl

/-- Counterexample to C8 as stated: when both verification attempts
fail, the call aborts fatally but the corrupt artifact file is still
present at the output path — a partially written artifact is left on
disk. -/
theorem png_finalize_counterexample :
    (png_finalize VerifyOutcome.invalid VerifyOutcome.invalid true).1 =
        RenderOutcome.fatalError ∧
    (png_finalize VerifyOutcome.invalid VerifyOutcome.invalid true).2.1.outputExists = true ∧
    (png_finalize VerifyOutcome.invalid VerifyOutcome.invalid true).2.1.outputValid = false := by
  decide

/-! ### The compression stage under PCEN (C3) and without PCEN (C5) -/

theorem pyMean_pair : pyMean [(1 : ℝ), 3] = 2 := by
  norm_num [pyMean, List.sum_cons, List.sum_nil]

theorem pyStd_pair : pyStd [(1 : ℝ), 3] = 1 := by
  unfold pyStd
  rw [pyMean_pair]
  simp only [List.map_cons, List.map_nil, List.sum_cons, List.sum_nil]
  rw [show (((1 : ℝ) - 2) ^ 2 + (((3 : ℝ) - 2) ^ 2 + 0)) / ([(1 : ℝ), 3].length : ℝ) = 1 by
    norm_num]
  exact Real.sqrt_one

/-- C3 / code bug: with PCEN enabled and `per_frequency_normalization`
set, the compression stage of `generate_spectrogram` still applies the
per-frequency normalization to the PCEN output (although the
configuration documents these fields as "ignored when PCEN is
enabled"): for the PCEN matrix `[[1, 3]]` the resulting `vmin` is the
negative minimum of the normalized values rather than the PCEN minimum
`1`. -/
theorem pcen_normalization_bug :
    (contrast_stage true true none 45 [[1, 3]]).2.1 < 0 ∧
    npMin [(1 : ℝ), 3] = 1 ∧
    (contrast_stage true true none 45 [[1, 3]]).2.1 ≠ npMin [(1 : ℝ), 3] := by
  have hε : (0 : ℝ) < smallEps := by norm_num [smallEps]
  have hnorm : per_frequency_normalize [[(1 : ℝ), 3]] =
      [[((1 : ℝ) - 2) / (1 + smallEps), ((3 : ℝ) - 2) / (1 + smallEps)]] := by
    unfold per_frequency_normalize
    simp only [List.map_cons, List.map_nil]
    rw [pyMean_pair, pyStd_pair]
  have hstage : (contrast_stage true true none 45 [[(1 : ℝ), 3]]).2.1 =
      npMin [((1 : ℝ) - 2) / (1 + smallEps), ((3 : ℝ) - 2) / (1 + smallEps)] := by
    unfold contrast_stage
    rw [if_pos rfl, hnorm]
    simp [List.flatten]
  have ha : ((1 : ℝ) - 2) / (1 + smallEps) < 0 := by
    apply div_neg_of_neg_of_pos <;> linarith
  have hb : ((1 : ℝ) - 2) / (1 + smallEps) ≤ ((3 : ℝ) - 2) / (1 + smallEps) :=
    (div_le_div_right (by linarith)).mpr (by norm_num)
  have hminpair : npMin [((1 : ℝ) - 2) / (1 + smallEps), ((3 : ℝ) - 2) / (1 + smallEps)] =
      ((1 : ℝ) - 2) / (1 + smallEps) := by
    simp only [npMin, List.foldl]
    exact min_eq_left hb
  have h13 : npMin [(1 : ℝ), 3] = 1 := by
    simp only [npMin, List.foldl]
    exact min_eq_left (by norm_num)
  refine ⟨?_, h13, ?_⟩
  · rw [hstage, hminpair]
    exact ha
  · rw [hstage, hminpair, h13]
    intro heq
    rw [heq] at ha
    linarith

/-- C5 (amended): with PCEN disabled, the compressor sets `value_max`
to the maximum of the (optionally per-frequency normalized) working
matrix, or to its configured contrast percentile; sets
`value_min = value_max - dynamic_range`; and clips from below only:
every output element is `max(input, value_min)`, never smaller than the
input, inputs at or above `value_min` are preserved, and — whenever
`dynamic_range ≥ 0` — inputs above `value_max` are preserved. -/
theorem contrast_stage_behaviour (pfn : Bool) (cp : Option ℚ) (dr : ℚ)
    (S : List (List ℝ)) :
    (contrast_stage false pfn cp dr S).2.2 =
      (match cp with
       | some q => np_percentile (if pfn then per_frequency_normalize S else S).flatten q
       | none => npMax (if pfn then per_frequency_normalize S else S).flatten) ∧
    (contrast_stage false pfn cp dr S).2.1 =
      (contrast_stage false pfn cp dr S).2.2 - (dr : ℝ) ∧
    List.Forall₂ (List.Forall₂ (fun a b =>
        b = max a (contrast_stage false pfn cp dr S).2.1 ∧
        a ≤ b ∧
        ((contrast_stage false pfn cp dr S).2.1 ≤ a → b = a) ∧
        (0 ≤ dr → (contrast_stage false pfn cp dr S).2.2 < a → b = a)))
      (if pfn then per_frequency_normalize S else S)
      (contrast_stage false pfn cp dr S).1 := by
  have hstage : contrast_stage false pfn cp dr S =
      ((if pfn then per_frequency_normalize S else S).map (fun row => row.map (fun x => max x
          ((match cp with
            | some q => np_percentile (if pfn then per_frequency_normalize S else S).flatten q
            | none => npMax (if pfn then per_frequency_normalize S else S).flatten) - (dr : ℝ)))),
        (match cp with
         | some q => np_percentile (if pfn then per_frequency_normalize S else S).flatten q
         | none => npMax (if pfn then per_frequency_normalize S else S).flatten) - (dr : ℝ),
        (match cp with
         | some q => np_percentile (if pfn then per_frequency_normalize S else S).flatten q
         | none => npMax (if pfn then per_frequency_normalize S else S).flatten)) := rfl
  set S1 := if pfn then per_frequency_normalize S else S with hS1
  rw [hstage]
  refine ⟨rfl, rfl, ?_⟩
  set vmax : ℝ := (match cp with
    | some q => np_percentile S1.flatten q
    | none => npMax S1.flatten) with hvmax
  rw [List.forall₂_map_right_iff]
  rw [List.forall₂_same]
  intro row hrow
  rw [List.forall₂_map_right_iff, List.forall₂_same]
  intro a ha
  have hmin : vmax - (dr : ℝ) ≤ vmax → True := fun _ => trivial
  refine ⟨rfl, le_max_left a _, fun hle => max_eq_left hle, fun hdr hlt => ?_⟩
  apply max_eq_left
  have : ((dr : ℚ) : ℝ) ≥ 0 := by exact_mod_cast hdr
  linarith

/-- Witness for `contrast_stage_behaviour`: the `value_min` relation at
a concrete one-element matrix. -/
theorem contrast_stage_witness :
    (contrast_stage false false none 45 [[(0 : ℝ)]]).2.1 =
      (contrast_stage false false none 45 [[(0 : ℝ)]]).2.2 - ((45 : ℚ) : ℝ) :=
  (contrast_stage_behaviour false none 45 [[(0 : ℝ)]]).2.1

/-- Counterexample to C5 as stated: with contrast percentile 0 and a
negative `dynamic_range = -10` on the matrix `[[0, 5]]`, `value_max`
is 0 but `value_min = 10`, and the element `5 > value_max` is raised
to 10 instead of being preserved. -/
theorem contrast_stage_counterexample :
    (contrast_stage false false (some 0) (-10) [[0, 5]]).2.2 = 0 ∧
    (contrast_stage false false (some 0) (-10) [[0, 5]]).1 = [[10, 10]] ∧
    ((5 : ℝ) ≠ 10) := by
  have hsort : List.insertionSort (fun a b : ℝ => a ≤ b) [0, 5] = [0, 5] := by
    simp only [List.insertionSort, List.orderedInsert]
    rw [if_pos (by norm_num)]
  have hperc : np_percentile [(0 : ℝ), 5] 0 = 0 := by
    unfold np_percentile
    rw [hsort]
    norm_num
  have hstage : contrast_stage false false (some 0) (-10) [[(0 : ℝ), 5]] =
      ([[(0 : ℝ), 5]].map (fun row => row.map (fun x => max x
          (np_percentile [(0 : ℝ), 5] 0 - ((-10 : ℚ) : ℝ)))),
        np_percentile [(0 : ℝ), 5] 0 - ((-10 : ℚ) : ℝ),
        np_percentile [(0 : ℝ), 5] 0) := by
    have : contrast_stage false false (some 0) (-10) [[(0 : ℝ), 5]] =
        ([[(0 : ℝ), 5]].map (fun row => row.map (fun x => max x
            (np_percentile [[(0 : ℝ), 5]].flatten 0 - ((-10 : ℚ) : ℝ)))),
          np_percentile [[(0 : ℝ), 5]].flatten 0 - ((-10 : ℚ) : ℝ),
          np_percentile [[(0 : ℝ), 5]].flatten 0) := rfl
    rw [this]
    norm_num [List.flatten]
  rw [hstage, hperc]
  refine ⟨rfl, ?_, by norm_num⟩
  simp only [List.map_cons, List.map_nil]
  rw [show (0 : ℝ) - ((-10 : ℚ) : ℝ) = 10 by norm_num]
  rw [max_eq_right (by norm_num), max_eq_right (by norm_num)]

/-! ### The newlook pipeline: frequency axis, failure modes, dB range -/

theorem compute_freqs_eq (audio_len sample_rate : ℕ) (n_fft hop_length : ℤ)
    (window : String) (fmin fmax : Option ℚ) :
    compute_spectrogram_freqs audio_len sample_rate n_fft hop_length window fmin fmax =
      match validate_window_name window ["hann", "blackman", "hamming"] with
      | Except.error e => Except.error e
      | Except.ok _ =>
        match scipy_stft_check n_fft hop_length audio_len with
        | Except.error e => Except.error e
        | Except.ok nperseg =>
          match clamp_frequency_range (pyOr fmin 0)
              (some (pyOr fmax ((sample_rate : ℚ) / 2))) sample_rate with
          | Except.error e => Except.error e
          | Except.ok lh =>
            Except.ok ((rfft_freqs sample_rate nperseg).filter
                (fun f => decide (lh.1 ≤ f ∧ f ≤ lh.2)),
              (rfft_freqs sample_rate nperseg).map
                (fun f => decide (lh.1 ≤ f ∧ f ≤ lh.2))) := by
  unfold compute_spectrogram_freqs
  cases validate_window_name window ["hann", "blackman", "hamming"] with
  | error e => rfl
  | ok w =>
    cases scipy_stft_check n_fft hop_length audio_len with
    | error e => rfl
    | ok nperseg =>
      cases clamp_frequency_range (pyOr fmin 0)
          (some (pyOr fmax ((sample_rate : ℚ) / 2))) sample_rate with
      | error e => rfl
      | ok lh => rfl

theorem rfft_freqs_pairwise (sr np : ℕ) (hsr : 1 ≤ sr) :
    (rfft_freqs sr np).Pairwise (fun a b => a < b) := by
  have h : rfft_freqs sr np = (List.range (np / 2 + 1)).map
      (fun k : ℕ => ((k : ℚ) * (sr : ℚ)) / (np : ℚ)) := rfl
  rw [h]
  rcases Nat.eq_zero_or_pos np with h0 | hpos
  · subst h0
    rw [show List.range (0 / 2 + 1) = [0] from rfl]
    simp
  · have hnp : (0 : ℚ) < (np : ℚ) := by exact_mod_cast hpos
    have hsr' : (0 : ℚ) < (sr : ℚ) := by exact_mod_cast hsr
    refine List.Pairwise.map (f := fun k : ℕ => ((k : ℚ) * (sr : ℚ)) / (np : ℚ)) ?_
      (List.pairwise_lt_range _)
    intro a b hab
    rw [div_lt_div_iff hnp hnp]
    have hq : ((a : ℚ)) < (b : ℚ) := by exact_mod_cast hab
    have := mul_lt_mul_of_pos_right (mul_lt_mul_of_pos_right hq hsr') hnp
    linarith

theorem clamp_ok_inv (fmin : ℚ) (fmax : ℚ) (sr : ℕ) (lh : ℚ × ℚ)
    (hclamp : clamp_frequency_range fmin (some fmax) sr = Except.ok lh) :
    lh = (max 0 fmin, min fmax ((sr : ℚ) / 2)) ∧
      max 0 fmin < min fmax ((sr : ℚ) / 2) := by
  have hc : clamp_frequency_range fmin (some fmax) sr =
      (if min fmax ((sr : ℚ) / 2) ≤ max 0 fmin
       then Except.error ("fmin must be lower than fmax and Nyquist")
       else Except.ok (max 0 fmin, min fmax ((sr : ℚ) / 2))) := rfl
  rw [hc] at hclamp
  by_cases h : min fmax ((sr : ℚ) / 2) ≤ max 0 fmin
  · rw [if_pos h] at hclamp
    exact absurd hclamp (by simp)
  · rw [if_neg h] at hclamp
    exact ⟨((Except.ok.injEq _ _).mp hclamp).symm, lt_of_not_le h⟩

/-- C6: for every run of the newlook `compute_spectrogram` that returns
(no `ConfigError`), the returned frequency axis is strictly ascending
and every element lies within `[max(0, fmin), min(fmax, nyquist)]`. -/
theorem compute_spectrogram_freqs_sorted_bounded
    (audio_len sample_rate : ℕ) (n_fft hop_length : ℤ) (window : String)
    (fmin fmax : Option ℚ) (freqs : List ℚ) (keep : List Bool)
    (hok : compute_spectrogram_freqs audio_len sample_rate n_fft hop_length window fmin fmax =
      Except.ok (freqs, keep)) :
    freqs.Pairwise (fun a b => a < b) ∧
    ∀ f ∈ freqs, max 0 (pyOr fmin 0) ≤ f ∧
      f ≤ min (pyOr fmax ((sample_rate : ℚ) / 2)) ((sample_rate : ℚ) / 2) := by
  rw [compute_freqs_eq] at hok
  split at hok
  · exact absurd hok (by simp)
  split at hok
  · exact absurd hok (by simp)
  split at hok
  · exact absurd hok (by simp)
  rename_i lh hclamp
  obtain ⟨hlh, hlt⟩ := clamp_ok_inv _ _ _ _ hclamp
  have hsr : 1 ≤ sample_rate := by
    by_contra hc
    have hsr0 : sample_rate = 0 := by omega
    rw [hsr0] at hlt
    simp only [Nat.cast_zero] at hlt
    have h1 : min (pyOr fmax ((0 : ℚ) / 2)) ((0 : ℚ) / 2) ≤ 0 := by
      rw [show ((0 : ℚ) / 2) = 0 by norm_num]
      exact min_le_right _ _
    have h2 : (0 : ℚ) ≤ max 0 (pyOr fmin 0) := le_max_left 0 _
    linarith
  obtain ⟨hfe, hke⟩ := (Prod.mk.injEq _ _ _ _).mp ((Except.ok.injEq _ _).mp hok)
  constructor
  · rw [← hfe]
    exact List.Pairwise.filter _ (rfft_freqs_pairwise sample_rate _ hsr)
  · intro f hf
    rw [← hfe] at hf
    have hmem := (List.mem_filter.mp hf).2
    have hprop := of_decide_eq_true hmem
    rw [hlh] at hprop
    exact hprop

theorem rfft_freqs_200_4 : rfft_freqs 200 4 = [0, 50, 100] := by
  show List.map _ (List.range 3) = _
  rw [show List.range 3 = [0, 1, 2] from rfl]
  simp only [List.map_cons, List.map_nil]
  norm_num

theorem clamp_concrete_full :
    clamp_frequency_range (pyOr none 0) (some (pyOr none ((200 : ℚ) / 2))) 200 =
      Except.ok (0, 100) := by
  have h : clamp_frequency_range (pyOr none 0) (some (pyOr none ((200 : ℚ) / 2))) 200 =
      (if min ((200 : ℚ) / 2) ((200 : ℚ) / 2) ≤ max 0 (0 : ℚ)
       then Except.error ("fmin must be lower than fmax and Nyquist")
       else Except.ok (max 0 (0 : ℚ), min ((200 : ℚ) / 2) ((200 : ℚ) / 2))) := rfl
  rw [h, if_neg (by norm_num)]
  simp only [Except.ok.injEq, Prod.mk.injEq]
  constructor <;> norm_num

theorem compute_freqs_concrete (audio_len sample_rate : ℕ) (n_fft hop_length : ℤ)
    (window lowered : String) (fmin fmax : Option ℚ) (nperseg : ℕ) (lo hi : ℚ)
    (frs : List ℚ) (kp : List Bool)
    (h1 : validate_window_name window ["hann", "blackman", "hamming"] = Except.ok lowered)
    (h2 : scipy_stft_check n_fft hop_length audio_len = Except.ok nperseg)
    (h3 : clamp_frequency_range (pyOr fmin 0)
        (some (pyOr fmax ((sample_rate : ℚ) / 2))) sample_rate = Except.ok (lo, hi))
    (h4 : (rfft_freqs sample_rate nperseg).filter
        (fun f => decide (lo ≤ f ∧ f ≤ hi)) = frs)
    (h5 : (rfft_freqs sample_rate nperseg).map
        (fun f => decide (lo ≤ f ∧ f ≤ hi)) = kp) :
    compute_spectrogram_freqs audio_len sample_rate n_fft hop_length window fmin fmax =
      Except.ok (frs, kp) := by
  rw [compute_freqs_eq, h1, h2, h3, ← h4, ← h5]

/-- Witness for `compute_spectrogram_freqs_sorted_bounded` at a concrete
successful run (`sr = 200`, `n_fft = 4`, `hop = 2`, 8 samples). -/
theorem compute_spectrogram_freqs_witness :
    ([0, 50, 100] : List ℚ).Pairwise (fun a b => a < b) ∧
    ∀ f ∈ ([0, 50, 100] : List ℚ), max 0 (pyOr none 0) ≤ f ∧
      f ≤ min (pyOr none ((200 : ℚ) / 2)) ((200 : ℚ) / 2) := by
  apply compute_spectrogram_freqs_sorted_bounded 8 200 4 2 "hann" none none
    [0, 50, 100] [true, true, true]
  apply compute_freqs_concrete 8 200 4 2 "hann" "hann" none none 4 0 100
  · decide
  · decide
  · exact clamp_concrete_full
  · rw [rfft_freqs_200_4]
    norm_num [List.filter_cons, List.filter_nil, decide_eq_true_eq]
  · rw [rfft_freqs_200_4]
    simp only [List.map_cons, List.map_nil]
    norm_num [decide_eq_true_eq]

/-- C7 (amended): for non-empty buffers, the newlook spectrogram
computation fails exactly when the window name is unrecognized, or
`fft_size < 1`, or the overlap `fft_size - hop_length` reaches the
(length-adjusted) segment size `min(fft_size, buffer_length)` — which
happens whenever `hop_length ≤ 0`, and for buffers shorter than
`fft_size` even at some positive hops — or the clamped frequency window
is empty.  `hop_length > fft_size` does **not** raise: the overlap is
negative and the transform proceeds with gaps between frames. -/
theorem compute_spectrogram_failure_characterization
    (audio_len sample_rate : ℕ) (n_fft hop_length : ℤ) (window : String)
    (fmin fmax : Option ℚ) (hlen : 1 ≤ audio_len) :
    (∃ e, compute_spectrogram_freqs audio_len sample_rate n_fft hop_length window fmin fmax =
        Except.error e) ↔
      (¬ ((["hann", "blackman", "hamming"].map (fun w => pyLower w)).contains
          (pyLower window) = true) ∨
        n_fft < 1 ∨
        (((min n_fft.toNat audio_len : ℕ) : ℤ) ≤ n_fft - hop_length) ∨
        min (pyOr fmax ((sample_rate : ℚ) / 2)) ((sample_rate : ℚ) / 2) ≤
          max 0 (pyOr fmin 0)) := by
  rw [compute_freqs_eq]
  by_cases hw : (["hann", "blackman", "hamming"].map (fun w => pyLower w)).contains
      (pyLower window) = true
  · have hv : validate_window_name window ["hann", "blackman", "hamming"] =
        Except.ok (pyLower window) := by
      unfold validate_window_name
      rw [if_pos hw]
    rw [hv]
    by_cases h1 : n_fft < 1
    · have hs : scipy_stft_check n_fft hop_length audio_len =
          Except.error ("nperseg must be a positive integer") := by
        unfold scipy_stft_check
        rw [if_pos h1]
      rw [hs]
      simp only [hw, h1]
      constructor
      · intro _
        right
        left
        trivial
      · intro _
        exact ⟨_, rfl⟩
    · by_cases h2 : (((min n_fft.toNat audio_len : ℕ) : ℤ) ≤ n_fft - hop_length)
      · have hs : scipy_stft_check n_fft hop_length audio_len =
            Except.error ("noverlap must be less than nperseg.") := by
          unfold scipy_stft_check
          rw [if_neg h1]
          show (if ((min n_fft.toNat audio_len : ℕ) : ℤ) ≤ n_fft - hop_length
              then Except.error ("noverlap must be less than nperseg.")
              else Except.ok (min n_fft.toNat audio_len)) = _
          rw [if_pos h2]
        rw [hs]
        constructor
        · intro _
          right
          right
          left
          exact h2
        · intro _
          exact ⟨_, rfl⟩
      · have hs : scipy_stft_check n_fft hop_length audio_len =
            Except.ok (min n_fft.toNat audio_len) := by
          unfold scipy_stft_check
          rw [if_neg h1]
          show (if ((min n_fft.toNat audio_len : ℕ) : ℤ) ≤ n_fft - hop_length
              then Except.error ("noverlap must be less than nperseg.")
              else Except.ok (min n_fft.toNat audio_len)) = _
          rw [if_neg h2]
        rw [hs]
        by_cases h3 : min (pyOr fmax ((sample_rate : ℚ) / 2)) ((sample_rate : ℚ) / 2) ≤
            max 0 (pyOr fmin 0)
        · have hc : clamp_frequency_range (pyOr fmin 0)
              (some (pyOr fmax ((sample_rate : ℚ) / 2))) sample_rate =
              Except.error ("fmin must be lower than fmax and Nyquist") := by
            have heq : clamp_frequency_range (pyOr fmin 0)
                (some (pyOr fmax ((sample_rate : ℚ) / 2))) sample_rate =
                (if min (pyOr fmax ((sample_rate : ℚ) / 2)) ((sample_rate : ℚ) / 2) ≤
                    max 0 (pyOr fmin 0)
                 then Except.error ("fmin must be lower than fmax and Nyquist")
                 else Except.ok (max 0 (pyOr fmin 0),
                   min (pyOr fmax ((sample_rate : ℚ) / 2)) ((sample_rate : ℚ) / 2))) := rfl
            rw [heq, if_pos h3]
          rw [hc]
          constructor
          · intro _
            right
            right
            right
            exact h3
          · intro _
            exact ⟨_, rfl⟩
        · have hc : clamp_frequency_range (pyOr fmin 0)
              (some (pyOr fmax ((sample_rate : ℚ) / 2))) sample_rate =
              Except.ok (max 0 (pyOr fmin 0),
                min (pyOr fmax ((sample_rate : ℚ) / 2)) ((sample_rate : ℚ) / 2)) := by
            have heq : clamp_frequency_range (pyOr fmin 0)
                (some (pyOr fmax ((sample_rate : ℚ) / 2))) sample_rate =
                (if min (pyOr fmax ((sample_rate : ℚ) / 2)) ((sample_rate : ℚ) / 2) ≤
                    max 0 (pyOr fmin 0)
                 then Except.error ("fmin must be lower than fmax and Nyquist")
                 else Except.ok (max 0 (pyOr fmin 0),
                   min (pyOr fmax ((sample_rate : ℚ) / 2)) ((sample_rate : ℚ) / 2))) := rfl
            rw [heq, if_neg h3]
          rw [hc]
          constructor
          · rintro ⟨e, he⟩
            exact absurd he (by simp)
          · intro hcases
            rcases hcases with hc' | hc' | hc' | hc'
            · exact absurd hw hc'
            · exact absurd hc' h1
            · exact absurd hc' h2
            · exact absurd hc' h3
  · have hv : validate_window_name window ["hann", "blackman", "hamming"] =
        Except.error ("Unsupported window " ++ window) := by
      unfold validate_window_name
      rw [if_neg hw]
    rw [hv]
    constructor
    · intro _
      left
      exact hw
    · intro _
      exact ⟨_, rfl⟩

/-- Witness for `compute_spectrogram_failure_characterization`: with
`hop_length = 0` (overlap equal to the full `fft_size`) the computation
fails, matching the characterization. -/
theorem compute_spectrogram_failure_witness :
    ∃ e, compute_spectrogram_freqs 8 200 4 0 "hann" none none = Except.error e := by
  apply (compute_spectrogram_failure_characterization 8 200 4 0 "hann" none none
    (by norm_num)).mpr
  right
  right
  left
  decide

/-- Counterexample to C7 as stated: `hop_length = 8 > fft_size = 4`
does not raise — the computation succeeds (scipy accepts a negative
overlap), contradicting the claim that `hop_length > fft_size` fails
with a `ConfigError`. -/
theorem hop_exceeding_fft_no_error :
    compute_spectrogram_freqs 8 200 4 8 "hann" none none =
      Except.ok ([0, 50, 100], [true, true, true]) := by
  apply compute_freqs_concrete 8 200 4 8 "hann" "hann" none none 4 0 100
  · decide
  · decide
  · exact clamp_concrete_full
  · rw [rfft_freqs_200_4]
    norm_num [List.filter_cons, List.filter_nil, decide_eq_true_eq]
  · rw [rfft_freqs_200_4]
    simp only [List.map_cons, List.map_nil]
    norm_num [decide_eq_true_eq]

/-! ### dB matrix bounds and the reference maximum (C10) -/

theorem compute_spectrogram_eq (audio_len : ℕ) (magnitude : List (List ℝ))
    (sample_rate : ℕ) (n_fft hop_length : ℤ) (window : String)
    (fmin fmax : Option ℚ) (per_freq_norm : Bool) (db_range : ℚ) :
    compute_spectrogram audio_len magnitude sample_rate n_fft hop_length window
        fmin fmax per_freq_norm db_range =
      match compute_spectrogram_freqs audio_len sample_rate n_fft hop_length window
          fmin fmax with
      | Except.error e => Except.error e
      | Except.ok fk => Except.ok (fk.1, maskRows fk.2
          (power_to_db (if per_freq_norm then newlook_per_freq_norm magnitude
            else magnitude) db_range)) := by
  unfold compute_spectrogram
  cases compute_spectrogram_freqs audio_len sample_rate n_fft hop_length window fmin fmax with
  | error e => rfl
  | ok fk => rfl

theorem maskRows_mem {keep : List Bool} {rows : List (List ℝ)} {row : List ℝ}
    (h : row ∈ maskRows keep rows) : row ∈ rows := by
  unfold maskRows at h
  rw [List.mem_map] at h
  obtain ⟨kr, hkr, hrow⟩ := h
  rw [List.mem_filter] at hkr
  have := List.mem_zip hkr.1
  rw [← hrow]
  exact this.2

theorem power_to_db_mem_bounds (S : List (List ℝ)) (db_range : ℚ) :
    ∀ row ∈ power_to_db S db_range, ∀ x ∈ row,
      -|((db_range : ℚ) : ℝ)| ≤ x ∧ x ≤ 0 := by
  intro row hrow x hx
  unfold power_to_db at hrow
  rw [List.mem_map] at hrow
  obtain ⟨row0, _, hrow⟩ := hrow
  rw [← hrow] at hx
  rw [List.mem_map] at hx
  obtain ⟨x0, _, hx⟩ := hx
  rw [← hx]
  constructor
  · have h1 : -|((db_range : ℚ) : ℝ)| ≤
        max (20 * Real.logb 10 (max x0 EPS32 / max (npMax S.flatten) EPS32))
          (-|((db_range : ℚ) : ℝ)|) := le_max_right _ _
    have h2 : -|((db_range : ℚ) : ℝ)| ≤ 0 := neg_nonpos_of_nonneg (abs_nonneg _)
    exact le_min h1 h2
  · exact min_le_right _ _

theorem power_to_db_attains_max (S : List (List ℝ)) (db_range : ℚ)
    (hmem : npMax S.flatten ∈ S.flatten) (hEPS : EPS32 ≤ npMax S.flatten) :
    ∃ row ∈ power_to_db S db_range, ∃ x ∈ row, x = 0 := by
  have hpos : 0 < npMax S.flatten := by
    have : (0 : ℝ) < EPS32 := by norm_num [EPS32]
    linarith
  rw [List.mem_flatten] at hmem
  obtain ⟨row, hrowS, hmax_in⟩ := hmem
  refine ⟨row.map (fun x =>
      min (max (20 * Real.logb 10 (max x EPS32 / max (npMax S.flatten) EPS32))
        (-|((db_range : ℚ) : ℝ)|)) 0), ?_, ?_⟩
  · unfold power_to_db
    exact List.mem_map_of_mem _ hrowS
  · refine ⟨_, List.mem_map_of_mem _ hmax_in, ?_⟩
    rw [max_eq_left hEPS, div_self (ne_of_gt hpos), Real.logb_one]
    rw [mul_zero, max_eq_left (neg_nonpos_of_nonneg (abs_nonneg _))]
    exact min_self 0

/-- C10 (amended): every element of the dB matrix returned by the
newlook `compute_spectrogram` lies in `[-|db_range|, 0]`; the decibel
reference is the working matrix's own maximum — the unmasked
`_power_to_db` output always attains `0` at a maximal magnitude at or
above the epsilon floor.  The returned matrix attains `0` only when
such a row survives the frequency mask, which is not guaranteed. -/
theorem compute_spectrogram_db_range (audio_len : ℕ) (magnitude : List (List ℝ))
    (sample_rate : ℕ) (n_fft hop_length : ℤ) (window : String)
    (fmin fmax : Option ℚ) (per_freq_norm : Bool) (db_range : ℚ)
    (freqs : List ℚ) (db : List (List ℝ))
    (hok : compute_spectrogram audio_len magnitude sample_rate n_fft hop_length window
        fmin fmax per_freq_norm db_range = Except.ok (freqs, db)) :
    (∀ row ∈ db, ∀ x ∈ row, -|((db_range : ℚ) : ℝ)| ≤ x ∧ x ≤ 0) ∧
    (npMax (if per_freq_norm then newlook_per_freq_norm magnitude
        else magnitude).flatten ∈
        (if per_freq_norm then newlook_per_freq_norm magnitude else magnitude).flatten →
      EPS32 ≤ npMax (if per_freq_norm then newlook_per_freq_norm magnitude
        else magnitude).flatten →
      ∃ row ∈ power_to_db (if per_freq_norm then newlook_per_freq_norm magnitude
        else magnitude) db_range, ∃ x ∈ row, x = 0) := by
  rw [compute_spectrogram_eq] at hok
  constructor
  · split at hok
    · exact absurd hok (by simp)
    · obtain ⟨hfe, hde⟩ := (Prod.mk.injEq _ _ _ _).mp ((Except.ok.injEq _ _).mp hok)
      intro row hrow
      rw [← hde] at hrow
      exact power_to_db_mem_bounds _ db_range row (maskRows_mem hrow)
  · intro hmem hEPS
    exact power_to_db_attains_max _ db_range hmem hEPS

theorem rfft_freqs_200_2 : rfft_freqs 200 2 = [0, 100] := by
  show List.map _ (List.range 2) = _
  rw [show List.range 2 = [0, 1] from rfl]
  simp only [List.map_cons, List.map_nil]
  norm_num

theorem log_EPS32_small : 20 * Real.logb 10 EPS32 ≤ -60 := by
  have hEPSpos : (0 : ℝ) < EPS32 := by norm_num [EPS32]
  have hlog10 : 0 < Real.log 10 := Real.log_pos (by norm_num)
  have h1 : Real.log (EPS32 * 1000) < 0 :=
    Real.log_neg (by norm_num [EPS32]) (by norm_num [EPS32])
  have h2 : Real.log (EPS32 * 1000) = Real.log EPS32 + Real.log 1000 :=
    Real.log_mul (by norm_num [EPS32]) (by norm_num)
  have h3 : Real.log 1000 = 3 * Real.log 10 := by
    rw [show (1000 : ℝ) = 10 ^ (3 : ℕ) by norm_num, Real.log_pow]
    push_cast
    ring
  have hkey : Real.log EPS32 < -3 * Real.log 10 := by linarith
  have hdiv : Real.log EPS32 / Real.log 10 < -3 := by
    rw [div_lt_iff hlog10]
    linarith
  rw [Real.logb]
  linarith

theorem power_to_db_concrete : power_to_db [[(1 : ℝ)], [0]] 60 = [[0], [-(60 : ℝ)]] := by
  have hEPSpos : (0 : ℝ) < EPS32 := by norm_num [EPS32]
  have hEPS1 : EPS32 ≤ (1 : ℝ) := by norm_num [EPS32]
  have hflat : ([[(1 : ℝ)], [0]] : List (List ℝ)).flatten = [1, 0] := rfl
  have hmax : npMax [(1 : ℝ), 0] = 1 := by
    simp only [npMax, List.foldl]
    exact max_eq_left (by norm_num)
  have habs : |((60 : ℚ) : ℝ)| = 60 := by
    rw [show ((60 : ℚ) : ℝ) = 60 by norm_num]
    exact abs_of_nonneg (by norm_num)
  unfold power_to_db
  rw [hflat, hmax]
  simp only [List.map_cons, List.map_nil]
  rw [max_eq_left hEPS1]
  have hone : min (max (20 * Real.logb 10 ((1 : ℝ) / 1)) (-|((60 : ℚ) : ℝ)|)) 0
      = 0 := by
    rw [div_one, Real.logb_one, mul_zero, habs]
    rw [max_eq_left (by norm_num)]
    exact min_self 0
  have hzero : min (max (20 * Real.logb 10 (max (0 : ℝ) EPS32 / 1)) (-|((60 : ℚ) : ℝ)|)) 0
      = -(60 : ℝ) := by
    rw [max_eq_right (le_of_lt hEPSpos), div_one, habs]
    rw [max_eq_right log_EPS32_small]
    exact min_eq_left (by norm_num)
  rw [hone, hzero]

theorem clamp_concrete_band :
    clamp_frequency_range (pyOr (some 50) 0) (some (pyOr (some 100) ((200 : ℚ) / 2))) 200 =
      Except.ok (50, 100) := by
  have h : clamp_frequency_range (pyOr (some 50) 0)
      (some (pyOr (some 100) ((200 : ℚ) / 2))) 200 =
      (if min (pyOr (some 100) ((200 : ℚ) / 2)) ((200 : ℚ) / 2) ≤
          max 0 (pyOr (some 50) 0)
       then Except.error ("fmin must be lower than fmax and Nyquist")
       else Except.ok (max 0 (pyOr (some 50) 0),
         min (pyOr (some 100) ((200 : ℚ) / 2)) ((200 : ℚ) / 2))) := rfl
  have h50 : pyOr (some 50) 0 = 50 := by norm_num [pyOr]
  have h100 : pyOr (some 100) ((200 : ℚ) / 2) = 100 := by norm_num [pyOr]
  rw [h, h50, h100, if_neg (by norm_num)]
  simp only [Except.ok.injEq, Prod.mk.injEq]
  constructor <;> norm_num

/-- Counterexample to C10 as stated: for the magnitude matrix
`[[1], [0]]` (finite, non-negative, with an element above the epsilon
floor) and the band `fmin = 50, fmax = 100`, the row holding the
maximal magnitude is masked out and the returned dB matrix is
`[[-60]]`: its maximum is `-60`, not `0`. -/
theorem masked_db_max_not_zero :
    compute_spectrogram 2 [[(1 : ℝ)], [0]] 200 2 1 "hann" (some 50) (some 100) false 60 =
      Except.ok ([100], [[-(60 : ℝ)]]) ∧
    (-(60 : ℝ) ≠ 0) ∧
    EPS32 ≤ npMax ([[(1 : ℝ)], [0]] : List (List ℝ)).flatten := by
  have hfk : compute_spectrogram_freqs 2 200 2 1 "hann" (some 50) (some 100) =
      Except.ok ([100], [false, true]) := by
    apply compute_freqs_concrete 2 200 2 1 "hann" "hann" (some 50) (some 100) 2 50 100
    · decide
    · decide
    · exact clamp_concrete_band
    · rw [rfft_freqs_200_2]
      norm_num [List.filter_cons, List.filter_nil, decide_eq_true_eq]
    · rw [rfft_freqs_200_2]
      simp only [List.map_cons, List.map_nil, List.cons.injEq, List.nil_eq]
      norm_num [decide_eq_true_eq, decide_eq_false_iff_not]
  refine ⟨?_, by norm_num, ?_⟩
  · rw [compute_spectrogram_eq, hfk]
    show Except.ok (([100] : List ℚ),
        maskRows [false, true] (power_to_db [[(1 : ℝ)], [0]] 60)) = _
    rw [power_to_db_concrete]
    rfl
  · have hflat : ([[(1 : ℝ)], [0]] : List (List ℝ)).flatten = [1, 0] := rfl
    rw [hflat]
    have hmax : npMax [(1 : ℝ), 0] = 1 := by
      simp only [npMax, List.foldl]
      exact max_eq_left (by norm_num)
    rw [hmax]
    norm_num [EPS32]

/-- Witness for `compute_spectrogram_db_range` at a concrete run with
the full band retained. -/
theorem compute_spectrogram_db_range_witness :
    ∃ freqs db,
      compute_spectrogram 2 [[(1 : ℝ)], [0]] 200 2 1 "hann" none none false 60 =
        Except.ok (freqs, db) ∧
      ∀ row ∈ db, ∀ x ∈ row, -|((60 : ℚ) : ℝ)| ≤ x ∧ x ≤ 0 := by
  have hfk : compute_spectrogram_freqs 2 200 2 1 "hann" none none =
      Except.ok ([0, 100], [true, true]) := by
    apply compute_freqs_concrete 2 200 2 1 "hann" "hann" none none 2 0 100
    · decide
    · decide
    · exact clamp_concrete_full
    · rw [rfft_freqs_200_2]
      norm_num [List.filter_cons, List.filter_nil, decide_eq_true_eq]
    · rw [rfft_freqs_200_2]
      simp only [List.map_cons, List.map_nil]
      norm_num [decide_eq_true_eq]
  have hcs : compute_spectrogram 2 [[(1 : ℝ)], [0]] 200 2 1 "hann" none none false 60 =
      Except.ok ([0, 100],
        maskRows [true, true] (power_to_db [[(1 : ℝ)], [0]] 60)) := by
    rw [compute_spectrogram_eq, hfk]
    rfl
  refine ⟨_, _, hcs, ?_⟩
  exact (compute_spectrogram_db_range 2 [[(1 : ℝ)], [0]] 200 2 1 "hann" none none
    false 60 _ _ hcs).1
